import Mathlib

/-! Grid traversal: best-coverage path search.

A shallow embedding of `gridTraversalSolution.c` and a verification of the
claims its specification makes about it.

Conventions of the embedding.

* C `int` values are `Int`; sizes that the program only ever uses as
  non-negative dimensions or counts (`rows`, `cols`, `numBlockedCells`,
  `numMoves`, `movesLeft`) are `Nat`.  All arithmetic of the program stays far
  below `2^31` for any grid that can be allocated, so no wrap-around is
  modelled.
* A heap array is a `List`; reading slot `i` is `getD i`, writing is `set i`.
  Allocation is assumed to succeed (the failure paths only call `exit`).
* `calloc` yields zeros.  `malloc` yields indeterminate slots: a path slot is
  an `Option CoordS`, and `none` is a slot that has never been written.
* Every theorem about a run of the search assumes a budget `numMoves` of at
  least 1: with `numMoves = 0` the program would call `findPath` with
  `movesLeft = -1`, which the natural number `movesLeft` does not model.
-/

namespace GridTraversal

/-! ## Data structures (source lines 11-32) -/

/-- A coordinate `{row, col}` (source: `CoordS`). -/
structure CoordS where
  row : Int
  col : Int
deriving DecidableEq, Repr

/-- The grid (source: `GridS`).  `cells` is the `int**` matrix, one inner list
per row; a cell is blocked when its entry is not `0`. -/
structure GridS where
  numBlockedCells : Nat
  rows : Nat
  cols : Nat
  cells : List (List Int)
deriving DecidableEq, Repr

/-- A path record (source: `PathS`): figures of merit and the coordinate
buffer. -/
structure PathS where
  cover : Int
  len : Int
  path : List (Option CoordS)
deriving DecidableEq, Repr

/-- The four orthogonal directions, in the order of the source table
`dirs[NUM_OF_DIRS]` (line 32). -/
def dirs : List CoordS := [⟨1, 0⟩, ⟨-1, 0⟩, ⟨0, 1⟩, ⟨0, -1⟩]

/-- The memory that `solve` allocates and `findPath` mutates through its
pointer arguments: `cacheMap`, `curPath`, `bestPath`, `visitedCells`. -/
structure SearchState where
  cacheMap : List Int
  curPath : PathS
  bestPath : PathS
  visitedCells : List Int
deriving DecidableEq, Repr

/-- The locals of `solve` while its double loop runs: the search memory and the
counter `visitId`. -/
structure SolveState where
  mem : SearchState
  visitId : Int
deriving DecidableEq, Repr

/-- What `solve` does: either it prints "No free cells." and returns at line
152 before allocating anything, or it runs the search and hands `bestPath` to
`printResult` (line 211); `st` is the memory at that point. -/
inductive SolveResult where
  | noFreeCells
  | searched (st : SolveState)
deriving DecidableEq, Repr

/-! ## Grid access (source lines 55-72) -/

/-- The read `grid->cells[row][col]`. -/
def cellAt (g : GridS) (row col : Int) : Int :=
  (g.cells.getD row.toNat []).getD col.toNat 0

/-- Source `isCellValid` (line 57): in range and not blocked. -/
def isCellValid (g : GridS) (row col : Int) : Bool :=
  decide (row ≥ 0) && decide (row < g.rows) && decide (col ≥ 0) && decide (col < g.cols)
    && decide (cellAt g row col = 0)

/-- Source `getCellIdx` (line 62). -/
def getCellIdx (g : GridS) (row col : Int) : Int :=
  row * g.cols + col

/-- Source `getCacheMapIdx` (line 71). -/
def getCacheMapIdx (g : GridS) (row col : Int) (numMoves : Nat) (move : Int) : Int :=
  (row * g.cols + col) * numMoves + move

/-! ## Grid construction (source lines 91-131) -/

/-- The write `grid->cells[row][col] = v`. -/
def setCell (cells : List (List Int)) (row col : Nat) (v : Int) : List (List Int) :=
  cells.set row ((cells.getD row []).set col v)

/-- One iteration of the loop of lines 121-129: a listed coordinate inside the
grid is marked `1`, any other is skipped. -/
def blockCell (rows cols : Nat) (cells : List (List Int)) (b : CoordS) : List (List Int) :=
  if b.row ≥ 0 ∧ b.row < rows ∧ b.col ≥ 0 ∧ b.col < cols then
    setCell cells b.row.toNat b.col.toNat 1
  else cells

/-- Source `createGrid`.  The C array `blockedCells` with its count
`numBlockedCells` is the list `blockedCells`; every row is `calloc`ed to zeros
(line 117) and the listed cells are then set. -/
def createGrid (rows cols : Nat) (blockedCells : List CoordS) : GridS :=
  { rows := rows
    cols := cols
    numBlockedCells := blockedCells.length
    cells := blockedCells.foldl (blockCell rows cols)
      (List.replicate rows (List.replicate cols 0)) }

/-! ## The search (source lines 221-277) -/

/-- The call `memcpy(dst, src, n * sizeof(CoordS))`: the first `n` slots of
`dst` are overwritten by those of `src`. -/
def copyPath (dst src : List (Option CoordS)) (n : Nat) : List (Option CoordS) :=
  src.take n ++ dst.drop n

/-- Lines 232-245 of `findPath`: the memo test, the memo write, the write of
the current position into the path buffer and the best-path update.  `none`
is the early `return` of line 234. -/
def enterCell (g : GridS) (numMoves : Nat) (movesLeft : Nat) (row col : Int)
    (s : SearchState) : Option SearchState :=
  let cachMapIdx := (getCacheMapIdx g row col numMoves movesLeft).toNat
  if s.cacheMap.getD cachMapIdx 0 ≥ s.curPath.cover then none
  else
    let cur : PathS :=
      { s.curPath with
        path := s.curPath.path.set (s.curPath.len - 1).toNat (some ⟨row, col⟩) }
    let best : PathS :=
      if cur.cover > s.bestPath.cover ∨
          (cur.cover = s.bestPath.cover ∧ cur.len < s.bestPath.len) then
        { cover := cur.cover
          len := cur.len
          path := copyPath s.bestPath.path cur.path cur.len.toNat }
      else s.bestPath
    some { cacheMap := s.cacheMap.set cachMapIdx s.curPath.cover
           curPath := cur
           bestPath := best
           visitedCells := s.visitedCells }

/-- One iteration of the direction loop of `findPath` (lines 253-275) for the
direction `d`; `recur` is the recursive call of line 267. -/
def moveDir (g : GridS) (visitId : Int) (recur : Int → Int → SearchState → SearchState)
    (row col : Int) (s : SearchState) (d : CoordS) : SearchState :=
  let nRow := row + d.row
  let nCol := col + d.col
  if !isCellValid g nRow nCol then s
  else
    let idx := (getCellIdx g nRow nCol).toNat
    let isUniqueCell := decide (s.visitedCells.getD idx 0 ≠ visitId)
    let s1 : SearchState :=
      { s with
        curPath :=
          { s.curPath with
            cover := if isUniqueCell then s.curPath.cover + 1 else s.curPath.cover
            len := s.curPath.len + 1 }
        visitedCells := s.visitedCells.set idx visitId }
    let s2 := recur nRow nCol s1
    { s2 with
      curPath :=
        { s2.curPath with
          len := s2.curPath.len - 1
          cover := if isUniqueCell then s2.curPath.cover - 1 else s2.curPath.cover }
      visitedCells := if isUniqueCell then s2.visitedCells.set idx 0 else s2.visitedCells }

/-- Source `findPath`.  The recursion is on `movesLeft`: line 248 returns when
it is `0`, and line 267 recurses with `movesLeft - 1`. -/
def findPath (g : GridS) (numMoves : Nat) (visitId : Int) :
    Nat → Int → Int → SearchState → SearchState
  | 0, row, col, s =>
    match enterCell g numMoves 0 row col s with
    | none => s
    | some s1 => s1
  | movesLeft + 1, row, col, s =>
    match enterCell g numMoves (movesLeft + 1) row col s with
    | none => s
    | some s1 =>
      dirs.foldl (moveDir g visitId (findPath g numMoves visitId movesLeft) row col) s1

/-! ## The driver (source lines 147-218) -/

/-- The memory of `solve` before its loops (lines 156-188): `cacheMap` and
`visitedCells` are zeroed, both path buffers are `malloc`ed and unwritten. -/
def initState (g : GridS) (numMoves : Nat) : SolveState :=
  { mem :=
      { cacheMap := List.replicate (g.rows * g.cols * numMoves) 0
        curPath := { cover := 1, len := 1, path := List.replicate numMoves none }
        bestPath := { cover := 1, len := 1, path := List.replicate numMoves none }
        visitedCells := List.replicate (g.rows * g.cols) 0 }
    visitId := 1 }

/-- The body of the inner loop of `solve` (lines 195-207) at cell
`(row, col)`. -/
def startCell (g : GridS) (numMoves : Nat) (row : Nat) (st : SolveState) (col : Nat) :
    SolveState :=
  if cellAt g row col ≠ 0 then st
  else
    let visitId := st.visitId + 1
    let s : SearchState :=
      { st.mem with
        curPath :=
          { cover := 1, len := 1, path := st.mem.curPath.path.set 0 (some ⟨row, col⟩) }
        visitedCells := st.mem.visitedCells.set (getCellIdx g row col).toNat visitId }
    { mem := findPath g numMoves visitId (numMoves - 1) row col s
      visitId := visitId }

/-- The double loop of `solve` (lines 191-209), row-major over all cells. -/
def searchAll (g : GridS) (numMoves : Nat) : SolveState :=
  (List.range g.rows).foldl
    (fun st row => (List.range g.cols).foldl (startCell g numMoves row) st)
    (initState g numMoves)

/-- Source `solve`. -/
def solve (g : GridS) (numMoves : Nat) : SolveResult :=
  if g.rows * g.cols ≤ g.numBlockedCells then SolveResult.noFreeCells
  else SolveResult.searched (searchAll g numMoves)

/-- The grid built by `main` (lines 79-82). -/
def exampleGrid : GridS :=
  createGrid 8 8 [⟨2, 0⟩, ⟨2, 1⟩, ⟨2, 2⟩, ⟨2, 3⟩, ⟨2, 4⟩, ⟨3, 3⟩, ⟨4, 3⟩, ⟨5, 5⟩, ⟨6, 6⟩]

/-! ## Vocabulary of the specification -/

/-- The pair `(coverage, length)` that `printResult` prints, if the search
ran. -/
def reported : SolveResult → Option (Int × Int)
  | SolveResult.noFreeCells => none
  | SolveResult.searched st => some (st.mem.bestPath.cover, st.mem.bestPath.len)

/-- Two cells are orthogonally adjacent: the second is the first moved by one
of the four directions. -/
def adjacent (a b : CoordS) : Bool :=
  dirs.any (fun d => decide (b.row = a.row + d.row) && decide (b.col = a.col + d.col))

/-- A walk in the grid: a non-empty sequence of in-range unblocked cells whose
consecutive cells are orthogonally adjacent. -/
def isWalk (g : GridS) : List CoordS → Bool
  | [] => false
  | [a] => isCellValid g a.row a.col
  | a :: b :: rest => isCellValid g a.row a.col && adjacent a b && isWalk g (b :: rest)

/-- Number of distinct cells of a sequence of cells (its coverage). -/
def distinctCells (w : List CoordS) : Nat :=
  w.dedup.length

/-- All in-range unblocked cells of the grid, row-major. -/
def freeCells (g : GridS) : List CoordS :=
  (List.range g.rows).flatMap (fun r : Nat =>
    ((List.range g.cols).filter (fun c : Nat => decide (cellAt g (r : Int) (c : Int) = 0))).map
      (fun c : Nat => CoordS.mk (r : Int) (c : Int)))

/-- Number of unblocked cells of the grid. -/
def numFreeCells (g : GridS) : Nat :=
  (freeCells g).length


/-- The entries that `printResult` prints (lines 291-294): the first
`bestPath.len` slots of the buffer, if the search ran. -/
def reportedPath : SolveResult → Option (List (Option CoordS))
  | SolveResult.noFreeCells => none
  | SolveResult.searched st => some (st.mem.bestPath.path.take st.mem.bestPath.len.toNat)

/-- Every orthogonal neighbour of `(row, col)` is blocked or out of range. -/
def isEnclosedCell (g : GridS) (row col : Int) : Bool :=
  dirs.all (fun d => !isCellValid g (row + d.row) (col + d.col))

/-- The coordinate lies inside a `rows` by `cols` grid (the test of line
125). -/
def inGrid (rows cols : Nat) (b : CoordS) : Bool :=
  decide (b.row ≥ 0 ∧ b.row < rows ∧ b.col ≥ 0 ∧ b.col < cols)

/-- The 3 x 3 grid without blocked cells. -/
def openGrid : GridS :=
  createGrid 3 3 []

/-- The 3 x 3 grid with blocked cells (0,1), (1,0), (1,2), (2,1): the centre and
the four corners are unblocked and each is enclosed. -/
def enclosedGrid : GridS :=
  createGrid 3 3 [⟨0, 1⟩, ⟨1, 0⟩, ⟨1, 2⟩, ⟨2, 1⟩]

/-! ## Invariants used by the proofs -/

/-- Shape of a `rows` by `cols` matrix. -/
def MatrixShape (rows cols : Nat) (cells : List (List Int)) : Prop :=
  cells.length = rows ∧ ∀ r, r < rows → (cells.getD r []).length = cols

/-- The record `p` is backed by a walk: some walk of at most `n` cells has
`p.len` cells, `p.cover` distinct cells, and fills the first `p.len` slots of
the buffer. -/
def Realised (g : GridS) (n : Nat) (p : PathS) : Prop :=
  ∃ w : List CoordS, isWalk g w = true ∧ w.length ≤ n ∧ p.len = (w.length : Int) ∧
    p.cover = (distinctCells w : Int) ∧ p.path.take w.length = w.map some

/-- State of `bestPath` during a run: its buffer has `n` slots and it is
either still the initial record `{1, 1, unwritten}` of line 175 or a copy of a
walk. -/
def GoodBest (g : GridS) (n : Nat) (p : PathS) : Prop :=
  p.path.length = n ∧ (p = PathS.mk 1 1 (List.replicate n none) ∨ Realised g n p)

/-- The memo slot of the cell with index `i` and `m` moves left, for budget
`numMoves` (the slot `getCacheMapIdx` addresses). -/
def cacheAt (cache : List Int) (numMoves i m : Nat) : Int :=
  cache.getD (i * numMoves + m) 0

/-- The record `p` is at least as good as a candidate of coverage `x` and
length `l`, in the order of the best-path update (line 239). -/
def Dominates (p : PathS) (x l : Int) : Prop :=
  p.cover > x ∨ (p.cover = x ∧ p.len ≤ l)

/-- The state handed to the recursive call of line 267: the move of lines
263-265 into the cell `(nRow, nCol)` has been made. -/
def advance (g : GridS) (visitId : Int) (nRow nCol : Int) (s : SearchState) : SearchState :=
  { s with
    curPath :=
      { s.curPath with
        cover :=
          if decide (s.visitedCells.getD (getCellIdx g nRow nCol).toNat 0 ≠ visitId) then
            s.curPath.cover + 1
          else s.curPath.cover
        len := s.curPath.len + 1 }
    visitedCells := s.visitedCells.set (getCellIdx g nRow nCol).toNat visitId }

/-- The backtracking of lines 270-275 after the recursive call returned `s2`. -/
def retreat (g : GridS) (nRow nCol : Int) (isUniqueCell : Bool) (s2 : SearchState) :
    SearchState :=
  { s2 with
    curPath :=
      { s2.curPath with
        len := s2.curPath.len - 1
        cover := if isUniqueCell then s2.curPath.cover - 1 else s2.curPath.cover }
    visitedCells :=
      if isUniqueCell then s2.visitedCells.set (getCellIdx g nRow nCol).toNat 0
      else s2.visitedCells }

/-- The part of the search invariant that does not mention the path buffer:
`w` is the walk from the starting cell to the current position. -/
structure CoreInv (g : GridS) (n : Nat) (v : Int) (w : List CoordS) (s : SearchState) :
    Prop where
  pathLen : s.curPath.path.length = n
  len_eq : s.curPath.len = (w.length : Int)
  walk : isWalk g w = true
  cover_eq : s.curPath.cover = (distinctCells w : Int)
  visited : ∀ c : CoordS, isCellValid g c.row c.col = true →
    (s.visitedCells.getD (getCellIdx g c.row c.col).toNat 0 = v ↔ c ∈ w)
  visLen : s.visitedCells.length = g.rows * g.cols
  stamps : ∀ x ∈ s.visitedCells, x ≤ v
  best : GoodBest g n s.bestPath
  cacheLen : s.cacheMap.length = g.rows * g.cols * n
  dom : ∀ i m : Nat, i < g.rows * g.cols → m < n → 0 < cacheAt s.cacheMap n i m →
    Dominates s.bestPath (cacheAt s.cacheMap n i m) ((n : Int) - m)

/-- Invariant at every entry to `findPath` at cell `c`, reached by the walk
`w0 ++ [c]`: the slots before the current one hold `w0`. -/
def PathInv (g : GridS) (n : Nat) (v : Int) (w0 : List CoordS) (c : CoordS)
    (s : SearchState) : Prop :=
  CoreInv g n v (w0 ++ [c]) s ∧ s.curPath.path.take w0.length = w0.map some

/-- Invariant inside the direction loop: the buffer holds the whole walk. -/
def LoopInv (g : GridS) (n : Nat) (v : Int) (w : List CoordS) (s : SearchState) : Prop :=
  CoreInv g n v w s ∧ s.curPath.path.take w.length = w.map some

/-- Invariant of the double loop of `solve`. -/
structure SolveInv (g : GridS) (n : Nat) (st : SolveState) : Prop where
  pathLen : st.mem.curPath.path.length = n
  visLen : st.mem.visitedCells.length = g.rows * g.cols
  stamps : ∀ x ∈ st.mem.visitedCells, x ≤ st.visitId
  idPos : 1 ≤ st.visitId
  best : GoodBest g n st.mem.bestPath
  cacheLen : st.mem.cacheMap.length = g.rows * g.cols * n
  dom : ∀ i m : Nat, i < g.rows * g.cols → m < n → 0 < cacheAt st.mem.cacheMap n i m →
    Dominates st.mem.bestPath (cacheAt st.mem.cacheMap n i m) ((n : Int) - m)

/-- The memo tables of two runs on the same grid, one with budget `n + k` and
one with budget `n`, agree once the moves left are counted from the budget:
slot `(i, m + k)` of the first equals slot `(i, m)` of the second. -/
def CacheSim (g : GridS) (n k : Nat) (cN cn : List Int) : Prop :=
  ∀ i m : Nat, i < g.rows * g.cols → m < n → cacheAt cN (n + k) i (m + k) = cacheAt cn n i m

/-- The memo table `c2` agrees with `c1` on every slot with at least `k` moves
left. -/
def CacheFrame (g : GridS) (numMoves k : Nat) (c2 c1 : List Int) : Prop :=
  ∀ i m : Nat, i < g.rows * g.cols → k ≤ m → m < numMoves →
    cacheAt c2 numMoves i m = cacheAt c1 numMoves i m

/-- The memory handed to the top-level call of `findPath` for the starting
cell `(row, col)` (lines 198-203), with `visitId` already incremented. -/
def startState (g : GridS) (row col : Nat) (st : SolveState) : SearchState :=
  { st.mem with
    curPath :=
      { cover := 1, len := 1, path := st.mem.curPath.path.set 0 (some ⟨row, col⟩) }
    visitedCells := st.mem.visitedCells.set (getCellIdx g row col).toNat (st.visitId + 1) }

/-! ## Checked reads, fuel and traces -/

/-- The read `grid->cells[row][col]` with the bounds of both arrays checked:
`none` is a read outside the matrix. -/
def readCell (g : GridS) (row col : Int) : Option Int :=
  if row < 0 ∨ col < 0 then none
  else
    match g.cells[row.toNat]? with
    | none => none
    | some r => r[col.toNat]?

/-- Source `isCellValid` (line 57) with the short-circuit evaluation of `&&`
made explicit and the read of `grid->cells` checked: the matrix is read only
when the four range tests have succeeded, and `none` is a read outside it. -/
def isCellValidChecked (g : GridS) (row col : Int) : Option Bool :=
  if row ≥ 0 ∧ row < g.rows ∧ col ≥ 0 ∧ col < g.cols then
    (readCell g row col).map (fun x => decide (x = 0))
  else some false

/-- Lines 232-245 of `findPath` for a C `int` `movesLeft` (`enterCell` is this
function at a natural number). -/
def enterCellInt (g : GridS) (numMoves : Nat) (movesLeft : Int) (row col : Int)
    (s : SearchState) : Option SearchState :=
  let cachMapIdx := (getCacheMapIdx g row col numMoves movesLeft).toNat
  if s.cacheMap.getD cachMapIdx 0 ≥ s.curPath.cover then none
  else
    let cur : PathS :=
      { s.curPath with
        path := s.curPath.path.set (s.curPath.len - 1).toNat (some ⟨row, col⟩) }
    let best : PathS :=
      if cur.cover > s.bestPath.cover ∨
          (cur.cover = s.bestPath.cover ∧ cur.len < s.bestPath.len) then
        { cover := cur.cover
          len := cur.len
          path := copyPath s.bestPath.path cur.path cur.len.toNat }
      else s.bestPath
    some { cacheMap := s.cacheMap.set cachMapIdx s.curPath.cover
           curPath := cur
           bestPath := best
           visitedCells := s.visitedCells }

/-- One iteration of the direction loop when the recursive call may run out of
nesting depth (`none`). -/
def moveDirFuel (g : GridS) (visitId : Int)
    (recur : Int → Int → SearchState → Option SearchState)
    (row col : Int) (s : Option SearchState) (d : CoordS) : Option SearchState :=
  match s with
  | none => none
  | some s0 =>
    let nRow := row + d.row
    let nCol := col + d.col
    if !isCellValid g nRow nCol then some s0
    else
      match recur nRow nCol (advance g visitId nRow nCol s0) with
      | none => none
      | some s2 =>
        some (retreat g nRow nCol
          (decide (s0.visitedCells.getD (getCellIdx g nRow nCol).toNat 0 ≠ visitId)) s2)

/-- Source `findPath` with `movesLeft` a C `int` and the nesting depth of the
recursion bounded by `fuel`: every nested call uses one unit, and `none` means
that the recursion was still going when the bound was reached.  The test of
line 248 is `movesLeft == 0`, and line 267 passes `movesLeft - 1`. -/
def findPathFuel (g : GridS) (numMoves : Nat) (visitId : Int) :
    Nat → Int → Int → Int → SearchState → Option SearchState
  | 0, _, _, _, _ => none
  | fuel + 1, movesLeft, row, col, s =>
    match enterCellInt g numMoves movesLeft row col s with
    | none => some s
    | some s1 =>
      if movesLeft = 0 then some s1
      else
        dirs.foldl
          (moveDirFuel g visitId (findPathFuel g numMoves visitId fuel (movesLeft - 1)) row col)
          (some s1)

/-- Program points of `findPath` at which the memory is observed. -/
inductive Pt where
  /-- on entry to `findPath`, before line 233 -/
  | entry
  /-- after the best-path update (line 245), when the call was not pruned -/
  | entered
  /-- after `curPath->len++` (line 264) -/
  | lenInc
  /-- after `visitedCells[idx] = visitId` (line 265), before the recursive call -/
  | marked
  /-- after the recursive call of line 267 returned -/
  | returned
  /-- after `curPath->len--` (line 270) -/
  | lenDec
  /-- after `curPath->cover--` (line 273), or after line 271 if it is skipped -/
  | coverDec
  /-- at the end of the loop body (after line 275) -/
  | backtracked
deriving DecidableEq, Repr

/-- An observation of a run: the program point, the arguments of the active
call of `findPath` (`visitId`, `row`, `col`, `movesLeft`), the number of calls
of `findPath` that enclose it, and the memory at that point. -/
structure Event where
  pt : Pt
  visitId : Int
  row : Int
  col : Int
  movesLeft : Nat
  depth : Nat
  mem : SearchState
deriving DecidableEq, Repr

/-- The observations of a loop: those of each iteration, in order, the state
being advanced by `step`. -/
def loopTrace {σ δ ε : Type} (step : σ → δ → σ) (events : σ → δ → List ε) :
    List δ → σ → List ε
  | [], _ => []
  | d :: ds, s => events s d ++ loopTrace step events ds (step s d)

/-- The memory after lines 263-264 of a move into `(nRow, nCol)`: the coverage
is incremented for a cell not yet on the path, the length is incremented. -/
def afterLenInc (g : GridS) (visitId : Int) (nRow nCol : Int) (s : SearchState) :
    SearchState :=
  { s with
    curPath :=
      { s.curPath with
        cover :=
          if decide (s.visitedCells.getD (getCellIdx g nRow nCol).toNat 0 ≠ visitId) then
            s.curPath.cover + 1
          else s.curPath.cover
        len := s.curPath.len + 1 } }

/-- The memory after `curPath->len--` (line 270). -/
def afterLenDec (s2 : SearchState) : SearchState :=
  { s2 with curPath := { s2.curPath with len := s2.curPath.len - 1 } }

/-- The memory after lines 270-273: the length is decremented and, for a move
that was to a new cell, the coverage too; the visit stamp is not yet reset. -/
def afterCoverDec (isUniqueCell : Bool) (s2 : SearchState) : SearchState :=
  { s2 with
    curPath :=
      { s2.curPath with
        len := s2.curPath.len - 1
        cover := if isUniqueCell then s2.curPath.cover - 1 else s2.curPath.cover } }

/-- The observations of one iteration of the direction loop (lines 253-275),
statement by statement; `recur` is the recursive call and `recurEvents` its
observations, `mk` stamps an observation with the arguments of the active
call. -/
def dirEvents (g : GridS) (visitId : Int) (recur : Int → Int → SearchState → SearchState)
    (recurEvents : Int → Int → SearchState → List Event) (mk : Pt → SearchState → Event)
    (row col : Int) (s : SearchState) (d : CoordS) : List Event :=
  let nRow := row + d.row
  let nCol := col + d.col
  if !isCellValid g nRow nCol then []
  else
    let isUniqueCell :=
      decide (s.visitedCells.getD (getCellIdx g nRow nCol).toNat 0 ≠ visitId)
    let sB := advance g visitId nRow nCol s
    let s2 := recur nRow nCol sB
    [mk Pt.lenInc (afterLenInc g visitId nRow nCol s), mk Pt.marked sB] ++
      recurEvents nRow nCol sB ++
      [mk Pt.returned s2, mk Pt.lenDec (afterLenDec s2),
        mk Pt.coverDec (afterCoverDec isUniqueCell s2),
        mk Pt.backtracked (retreat g nRow nCol isUniqueCell s2)]

/-- The observations of the block of lines 232-245 and what follows it: the
entry, and, when the call is not pruned, the state after line 245 followed by
the observations `rest` of the direction loop. -/
def entryEvents (g : GridS) (numMoves : Nat) (visitId : Int) (movesLeft depth : Nat)
    (row col : Int) (s : SearchState) (rest : SearchState → List Event) : List Event :=
  Event.mk Pt.entry visitId row col movesLeft depth s ::
    match enterCell g numMoves movesLeft row col s with
    | none => []
    | some s1 => Event.mk Pt.entered visitId row col movesLeft depth s1 :: rest s1

/-- The observations of a call of `findPath`, in the order of execution;
`depth` is the number of enclosing calls. -/
def findPathTrace (g : GridS) (numMoves : Nat) (visitId : Int) :
    Nat → Nat → Int → Int → SearchState → List Event
  | 0, depth, row, col, s =>
    entryEvents g numMoves visitId 0 depth row col s (fun _ => [])
  | movesLeft + 1, depth, row, col, s =>
    entryEvents g numMoves visitId (movesLeft + 1) depth row col s
      (loopTrace (moveDir g visitId (findPath g numMoves visitId movesLeft) row col)
        (dirEvents g visitId (findPath g numMoves visitId movesLeft)
          (findPathTrace g numMoves visitId movesLeft (depth + 1))
          (fun pt m => Event.mk pt visitId row col (movesLeft + 1) depth m) row col)
        dirs)

/-- The observations of the body of the inner loop of `solve` at cell
`(row, col)`: none for a blocked cell, else those of the top-level call. -/
def startEvents (g : GridS) (numMoves : Nat) (row : Nat) (st : SolveState) (col : Nat) :
    List Event :=
  if cellAt g row col ≠ 0 then []
  else
    findPathTrace g numMoves (st.visitId + 1) (numMoves - 1) 0 row col (startState g row col st)

/-- The observations of the double loop of `solve`. -/
def searchTrace (g : GridS) (numMoves : Nat) : List Event :=
  loopTrace (fun st row => (List.range g.cols).foldl (startCell g numMoves row) st)
    (fun st row => loopTrace (startCell g numMoves row) (startEvents g numMoves row)
      (List.range g.cols) st)
    (List.range g.rows) (initState g numMoves)

/-- The observations of a run of `solve`: none in the "No free cells." branch. -/
def solveTrace (g : GridS) (numMoves : Nat) : List Event :=
  if g.rows * g.cols ≤ g.numBlockedCells then [] else searchTrace g numMoves

/-- The calls of `findPath` made in a list of observations. -/
def entriesOf (es : List Event) : List Event :=
  es.filter (fun e => decide (e.pt = Pt.entry))

/-- What a call of `findPath` with visit id `v` restores: `curPath.cover` and
`curPath.len` exactly, and every visit stamp either exactly or, for a stamp
that was not `v`, as `0`. -/
def Restored (v : Int) (s t : SearchState) : Prop :=
  t.curPath.cover = s.curPath.cover ∧ t.curPath.len = s.curPath.len ∧
    t.visitedCells.length = s.visitedCells.length ∧
    ∀ i : Nat, t.visitedCells.getD i 0 = s.visitedCells.getD i 0 ∨
      (t.visitedCells.getD i 0 = 0 ∧ s.visitedCells.getD i 0 ≠ v)

/-- The memo table `c2` is slot by slot at least `c1`. -/
def CacheLe (c1 c2 : List Int) : Prop :=
  ∀ i : Nat, c1.getD i 0 ≤ c2.getD i 0

/-- The bounds on the figures of merit at an observation: `1 <= cover`,
`1 <= len <= numMoves`, and `cover <= len`, except that between
`curPath->len--` and `curPath->cover--` the coverage may exceed the length by
one. -/
def Bounds (numMoves : Nat) (e : Event) : Prop :=
  1 ≤ e.mem.curPath.cover ∧ 1 ≤ e.mem.curPath.len ∧ e.mem.curPath.len ≤ numMoves ∧
    (if e.pt = Pt.lenDec then e.mem.curPath.cover ≤ e.mem.curPath.len + 1
      else e.mem.curPath.cover ≤ e.mem.curPath.len)

/-- The visit stamp of every blocked cell of the grid is `0`. -/
def BlockedZero (g : GridS) (vis : List Int) : Prop :=
  ∀ row col : Int, 0 ≤ row → row < g.rows → 0 ≤ col → col < g.cols → cellAt g row col ≠ 0 →
    vis.getD (getCellIdx g row col).toNat 0 = 0

/-- What holds at an entry of `findPath`: the search invariant for some walk
`w0` that leads to the cell of the call, the relation between length, depth and
moves left, and the stamps of the blocked cells. -/
def EntryInv (g : GridS) (n : Nat) (e : Event) : Prop :=
  ∃ w0 : List CoordS, PathInv g n e.visitId w0 ⟨e.row, e.col⟩ e.mem ∧
    w0.length + 1 + e.movesLeft = n ∧ e.depth = w0.length ∧
    BlockedZero g e.mem.visitedCells ∧ 0 < e.visitId

/-- What holds at every observation of a run. -/
def EventInv (g : GridS) (n : Nat) (e : Event) : Prop :=
  Bounds n e ∧ (e.pt = Pt.entry → EntryInv g n e)

/-- The memo table after the block of lines 232-235 of a call. -/
def cacheAfterEntry (g : GridS) (n ml : Nat) (row col : Int) (s : SearchState) : List Int :=
  match enterCell g n ml row col s with
  | none => s.cacheMap
  | some s1 => s1.cacheMap

/-- Laws of a relation `Ch c0 T c1` between the memo table `c0` before a list
of observations `T` and the memo table `c1` after it: it composes along the
run, and an observation other than an entry leaves the memo table alone. -/
structure ChainLaws (Ch : List Int → List Event → List Int → Prop) : Prop where
  nil : ∀ c, Ch c [] c
  append : ∀ c0 c1 c2 T U, Ch c0 T c1 → Ch c1 U c2 → Ch c0 (T ++ U) c2
  plain : ∀ e : Event, e.pt ≠ Pt.entry → Ch e.mem.cacheMap [e] e.mem.cacheMap

/-- The memo slot of the state `(row, col, movesLeft)`: the read
`cacheMap[getCacheMapIdx(grid, row, col, numMoves, movesLeft)]`. -/
def slotOf (g : GridS) (n : Nat) (cache : List Int) (row col : Int) (movesLeft : Nat) : Int :=
  cache.getD (getCacheMapIdx g row col n movesLeft).toNat 0

/-- Along the observations `T`, which start with memo table `c0` and end with
`c1`, no memo slot ever decreases. -/
def MonoChain (c0 : List Int) (T : List Event) (c1 : List Int) : Prop :=
  CacheLe c0 c1 ∧ (∀ e ∈ T, CacheLe c0 e.mem.cacheMap ∧ CacheLe e.mem.cacheMap c1) ∧
    T.Pairwise (fun a b => CacheLe a.mem.cacheMap b.mem.cacheMap)

/-- The 1 x 2 grid without blocked cells. -/
def pairGrid : GridS :=
  createGrid 1 2 []

/-- The memory on entry to the second top-level call of `findPath` of the run
of `solve` on `pairGrid` with budget 2: the search from (0,0) is over and the
search from (0,1) is about to start. -/
def pairSecondStart : SearchState :=
  startState pairGrid 0 1 (startCell pairGrid 2 0 (initState pairGrid 2) 0)

/-! ## Array lemmas -/

theorem getD_set_eq {α : Type} (l : List α) (i : Nat) (a d : α) (h : i < l.length) :
    (l.set i a).getD i d = a := by
  simp [List.getD_eq_getElem?_getD, List.getElem?_set, h]

theorem getD_set_ne {α : Type} (l : List α) (i j : Nat) (a d : α) (h : i ≠ j) :
    (l.set i a).getD j d = l.getD j d := by
  simp [List.getD_eq_getElem?_getD, List.getElem?_set, h]

theorem getD_replicate {α : Type} (n i : Nat) (a : α) :
    (List.replicate n a).getD i a = a := by
  simp only [List.getD_eq_getElem?_getD, List.getElem?_replicate]
  split <;> rfl

theorem matrixShape_replicate (rows cols : Nat) :
    MatrixShape rows cols (List.replicate rows (List.replicate cols 0)) := by
  refine ⟨by simp, fun r hr => ?_⟩
  simp [List.getD_eq_getElem?_getD, List.getElem?_replicate, hr]

theorem matrixShape_setCell {rows cols : Nat} {cells : List (List Int)}
    (h : MatrixShape rows cols cells) (r c : Nat) (v : Int) :
    MatrixShape rows cols (setCell cells r c v) := by
  obtain ⟨h1, h2⟩ := h
  refine ⟨by simp [setCell, h1], fun r1 hr1 => ?_⟩
  unfold setCell
  by_cases hrr : r = r1
  · subst hrr
    rw [getD_set_eq _ _ _ _ (by omega)]
    simpa using h2 r hr1
  · rw [getD_set_ne _ _ _ _ _ hrr]
    exact h2 r1 hr1

theorem read_setCell {rows cols : Nat} {cells : List (List Int)}
    (h : MatrixShape rows cols cells) (r c : Nat) (hr : r < rows) (hc : c < cols) (v : Int)
    (r1 c1 : Nat) :
    ((setCell cells r c v).getD r1 []).getD c1 0 =
      if r1 = r ∧ c1 = c then v else (cells.getD r1 []).getD c1 0 := by
  obtain ⟨h1, h2⟩ := h
  unfold setCell
  by_cases hrr : r = r1
  · subst hrr
    rw [getD_set_eq _ _ _ _ (by omega)]
    by_cases hcc : c = c1
    · subst hcc
      rw [getD_set_eq _ _ _ _ (by rw [h2 r hr]; exact hc)]
      simp
    · rw [getD_set_ne _ _ _ _ _ hcc]
      have hne : ¬ c1 = c := fun h => hcc h.symm
      simp [hne]
  · rw [getD_set_ne _ _ _ _ _ hrr]
    have : ¬ (r1 = r ∧ c1 = c) := fun h => hrr h.1.symm
    simp [this]

theorem matrixShape_blockCell {rows cols : Nat} {cells : List (List Int)}
    (h : MatrixShape rows cols cells) (b : CoordS) :
    MatrixShape rows cols (blockCell rows cols cells b) := by
  unfold blockCell
  split
  · exact matrixShape_setCell h _ _ _
  · exact h

theorem read_blockCell {rows cols : Nat} {cells : List (List Int)}
    (h : MatrixShape rows cols cells) (b : CoordS) (r c : Nat) (hr : r < rows) (hc : c < cols) :
    ((blockCell rows cols cells b).getD r []).getD c 0 =
      if b = ⟨r, c⟩ then 1 else (cells.getD r []).getD c 0 := by
  unfold blockCell
  split
  next hb =>
    obtain ⟨hb1, hb2, hb3, hb4⟩ := hb
    rw [read_setCell h _ _ (by omega) (by omega)]
    have : (r = b.row.toNat ∧ c = b.col.toNat) ↔ b = ⟨r, c⟩ := by
      constructor
      · rintro ⟨e1, e2⟩
        cases b with
        | mk br bc =>
          simp only [CoordS.mk.injEq] at *
          omega
      · intro e
        subst e
        simp
    simp only [this]
  next hb =>
    have : ¬ b = ⟨r, c⟩ := by
      intro e
      subst e
      apply hb
      simp
      omega
    simp [this]

theorem matrixShape_foldl_blockCell (rows cols : Nat) (bl : List CoordS) :
    ∀ cells : List (List Int), MatrixShape rows cols cells →
      MatrixShape rows cols (bl.foldl (blockCell rows cols) cells) := by
  induction bl with
  | nil => intro cells h; exact h
  | cons b bl ih =>
    intro cells h
    exact ih _ (matrixShape_blockCell h b)

theorem read_foldl_blockCell (rows cols : Nat) (bl : List CoordS) (r c : Nat)
    (hr : r < rows) (hc : c < cols) :
    ∀ cells : List (List Int), MatrixShape rows cols cells →
      ((bl.foldl (blockCell rows cols) cells).getD r []).getD c 0 =
        if (⟨r, c⟩ : CoordS) ∈ bl then 1 else (cells.getD r []).getD c 0 := by
  induction bl with
  | nil => intro cells _; simp
  | cons b bl ih =>
    intro cells h
    rw [List.foldl_cons, ih _ (matrixShape_blockCell h b), read_blockCell h b r c hr hc]
    by_cases h1 : (⟨r, c⟩ : CoordS) ∈ bl
    · simp [h1]
    · by_cases h2 : b = ⟨r, c⟩
      · simp [h2]
      · have : ¬ (⟨r, c⟩ : CoordS) = b := fun e => h2 e.symm
        simp [h1, h2, this]

/-- Content of a cell of a grid built by `createGrid`. -/
theorem cellAt_createGrid (rows cols : Nat) (bl : List CoordS) (r c : Nat)
    (hr : r < rows) (hc : c < cols) :
    cellAt (createGrid rows cols bl) r c = if (⟨r, c⟩ : CoordS) ∈ bl then 1 else 0 := by
  unfold cellAt createGrid
  simp only [Int.toNat_ofNat]
  rw [read_foldl_blockCell rows cols bl r c hr hc _ (matrixShape_replicate rows cols)]
  have : ((List.replicate rows (List.replicate cols (0 : Int))).getD r []).getD c 0 = 0 := by
    simp [List.getD_eq_getElem?_getD, List.getElem?_replicate, hr, hc]
  rw [this]

/-! ## Cells, indices and walks -/

theorem isCellValid_iff (g : GridS) (row col : Int) :
    isCellValid g row col = true ↔
      0 ≤ row ∧ row < g.rows ∧ 0 ≤ col ∧ col < g.cols ∧ cellAt g row col = 0 := by
  simp [isCellValid, and_assoc]

theorem cellIdx_lt (g : GridS) (row col : Int) (h : isCellValid g row col = true) :
    (getCellIdx g row col).toNat < g.rows * g.cols := by
  rw [isCellValid_iff] at h
  obtain ⟨h1, h2, h3, h4, _⟩ := h
  unfold getCellIdx
  have e1 : row * (g.cols : Int) + col < (g.rows : Int) * (g.cols : Int) := by
    have : (row + 1) * (g.cols : Int) ≤ (g.rows : Int) * (g.cols : Int) :=
      Int.mul_le_mul_of_nonneg_right (by omega) (by omega)
    have e : (row + 1) * (g.cols : Int) = row * (g.cols : Int) + g.cols := by ring
    omega
  have e2 : 0 ≤ row * (g.cols : Int) := Int.mul_nonneg h1 (by omega)
  have e3 : ((g.rows * g.cols : Nat) : Int) = (g.rows : Int) * (g.cols : Int) := by push_cast; ring
  omega

theorem cellIdx_inj (g : GridS) (a b : CoordS)
    (ha : isCellValid g a.row a.col = true) (hb : isCellValid g b.row b.col = true)
    (h : (getCellIdx g a.row a.col).toNat = (getCellIdx g b.row b.col).toNat) : a = b := by
  rw [isCellValid_iff] at ha hb
  obtain ⟨a1, a2, a3, a4, _⟩ := ha
  obtain ⟨b1, b2, b3, b4, _⟩ := hb
  unfold getCellIdx at h
  have ea : 0 ≤ a.row * (g.cols : Int) := Int.mul_nonneg a1 (by omega)
  have eb : 0 ≤ b.row * (g.cols : Int) := Int.mul_nonneg b1 (by omega)
  have e : a.row * (g.cols : Int) + a.col = b.row * (g.cols : Int) + b.col := by omega
  have hr : a.row = b.row := by
    rcases lt_trichotomy a.row b.row with hlt | heq | hgt
    · exfalso
      have : (a.row + 1) * (g.cols : Int) ≤ b.row * (g.cols : Int) :=
        Int.mul_le_mul_of_nonneg_right (by omega) (by omega)
      have e5 : (a.row + 1) * (g.cols : Int) = a.row * (g.cols : Int) + g.cols := by ring
      omega
    · exact heq
    · exfalso
      have : (b.row + 1) * (g.cols : Int) ≤ a.row * (g.cols : Int) :=
        Int.mul_le_mul_of_nonneg_right (by omega) (by omega)
      have e5 : (b.row + 1) * (g.cols : Int) = b.row * (g.cols : Int) + g.cols := by ring
      omega
  have hc : a.col = b.col := by
    rw [hr] at e
    omega
  cases a
  cases b
  simp only [CoordS.mk.injEq]
  exact ⟨hr, hc⟩

theorem distinctCells_eq_card (w : List CoordS) : distinctCells w = w.toFinset.card := by
  unfold distinctCells
  rw [List.card_toFinset]

theorem distinctCells_snoc_of_mem (w : List CoordS) (a : CoordS) (h : a ∈ w) :
    distinctCells (w ++ [a]) = distinctCells w := by
  rw [distinctCells_eq_card, distinctCells_eq_card]
  congr 1
  ext x
  simp only [List.mem_toFinset, List.mem_append, List.mem_singleton]
  constructor
  · rintro (hx | hx)
    · exact hx
    · exact hx ▸ h
  · intro hx
    exact Or.inl hx

theorem distinctCells_snoc_of_not_mem (w : List CoordS) (a : CoordS) (h : a ∉ w) :
    distinctCells (w ++ [a]) = distinctCells w + 1 := by
  rw [distinctCells_eq_card, distinctCells_eq_card]
  have : (w ++ [a]).toFinset = insert a w.toFinset := by
    ext x
    simp only [List.mem_toFinset, List.mem_append, List.mem_singleton, Finset.mem_insert]
    tauto
  rw [this, Finset.card_insert_of_not_mem (by simpa using h)]

theorem distinctCells_le_length (w : List CoordS) : distinctCells w ≤ w.length := by
  unfold distinctCells
  exact (List.dedup_sublist w).length_le

theorem distinctCells_pos (w : List CoordS) (h : w ≠ []) : 1 ≤ distinctCells w := by
  rw [distinctCells_eq_card]
  cases w with
  | nil => exact absurd rfl h
  | cons a t =>
    apply Finset.card_pos.mpr
    exact ⟨a, by simp⟩

theorem isWalk_ne_nil (g : GridS) (w : List CoordS) (h : isWalk g w = true) : w ≠ [] := by
  intro e
  subst e
  simp [isWalk] at h

theorem isWalk_valid (g : GridS) :
    ∀ w : List CoordS, isWalk g w = true → ∀ c ∈ w, isCellValid g c.row c.col = true
  | [], h, _, _ => by simp [isWalk] at h
  | [a], h, c, hc => by
    simp only [List.mem_singleton] at hc
    subst hc
    simpa [isWalk] using h
  | a :: b :: rest, h, c, hc => by
    simp only [isWalk, Bool.and_eq_true] at h
    rcases List.mem_cons.mp hc with e | e
    · subst e
      exact h.1.1
    · exact isWalk_valid g (b :: rest) h.2 c e

theorem isWalk_snoc (g : GridS) (b : CoordS) (hb : isCellValid g b.row b.col = true) :
    ∀ (w : List CoordS) (a : CoordS), isWalk g (w ++ [a]) = true → adjacent a b = true →
      isWalk g ((w ++ [a]) ++ [b]) = true
  | [], a, h, hab => by
    simp only [List.nil_append, isWalk] at h
    simp [isWalk, h, hab, hb]
  | [x], a, h, hab => by
    simp only [List.singleton_append, isWalk, Bool.and_eq_true] at h
    simp [isWalk, h.1.1, h.1.2, h.2, hab, hb]
  | x :: y :: rest, a, h, hab => by
    simp only [List.cons_append, isWalk, Bool.and_eq_true] at h
    have ih := isWalk_snoc g b hb (y :: rest) a (by simpa using h.2) hab
    simp only [List.cons_append, isWalk, Bool.and_eq_true]
    exact ⟨h.1, by simpa using ih⟩

theorem adjacent_of_dir (a d : CoordS) (hd : d ∈ dirs) :
    adjacent a ⟨a.row + d.row, a.col + d.col⟩ = true := by
  unfold adjacent
  rw [List.any_eq_true]
  exact ⟨d, hd, by simp⟩

theorem take_set_of_le {α : Type} (a : α) :
    ∀ (l : List α) (i k : Nat), k ≤ i → (l.set i a).take k = l.take k
  | [], _, _, _ => by simp
  | _ :: _, _, 0, _ => by simp
  | x :: t, 0, k + 1, h => by omega
  | x :: t, i + 1, k + 1, h => by
    simp only [List.set_cons_succ, List.take_succ_cons, List.cons.injEq, true_and]
    exact take_set_of_le a t i k (by omega)

theorem take_set_self {α : Type} (l : List α) (k : Nat) (a : α) (m : List α)
    (hk : k < l.length) (h : l.take k = m) : (l.set k a).take (k + 1) = m ++ [a] := by
  rw [List.take_succ, take_set_of_le a l k k (Nat.le_refl k), h]
  simp [List.getElem?_set, hk]

theorem take_of_take_succ {α β : Type} (l : List α) (f : β → α) (w : List β) (c : β)
    (h : l.take (w.length + 1) = (w ++ [c]).map f) : l.take w.length = w.map f := by
  have := congrArg (List.take w.length) h
  rw [List.take_take] at this
  simpa using this

/-! ## Invariants of the search -/

theorem flat_inj {n i m j k : Nat} (hm : m < n) (hk : k < n) (h : i * n + m = j * n + k) :
    i = j ∧ m = k := by
  have h1 : (i * n + m) % n = m := by
    rw [Nat.add_comm, Nat.add_mul_mod_self_right, Nat.mod_eq_of_lt hm]
  have h2 : (j * n + k) % n = k := by
    rw [Nat.add_comm, Nat.add_mul_mod_self_right, Nat.mod_eq_of_lt hk]
  have hmk : m = k := by rw [← h1, ← h2, h]
  subst hmk
  have h3 : i * n = j * n := by omega
  exact ⟨Nat.eq_of_mul_eq_mul_right (by omega) h3, rfl⟩

theorem flat_lt {n i m b : Nat} (hi : i < b) (hm : m < n) : i * n + m < b * n := by
  have h : (i + 1) * n ≤ b * n := Nat.mul_le_mul_right n hi
  have e : (i + 1) * n = i * n + n := by ring
  omega

theorem cacheIdx_toNat (g : GridS) (row col : Int) (n ml : Nat)
    (h : isCellValid g row col = true) :
    (getCacheMapIdx g row col n (ml : Int)).toNat = (getCellIdx g row col).toNat * n + ml := by
  rw [isCellValid_iff] at h
  obtain ⟨h1, _, h3, _, _⟩ := h
  unfold getCacheMapIdx getCellIdx
  have e2 : 0 ≤ row * (g.cols : Int) + col := by
    have := Int.mul_nonneg h1 (Int.ofNat_nonneg g.cols)
    omega
  obtain ⟨x, hx⟩ := Int.eq_ofNat_of_zero_le e2
  rw [hx]
  have : ((x : Int) * (n : Int) + (ml : Int)) = ((x * n + ml : Nat) : Int) := by push_cast; ring
  rw [this, Int.toNat_ofNat, Int.toNat_ofNat]

theorem isWalk_last_valid (g : GridS) (w0 : List CoordS) (c : CoordS)
    (h : isWalk g (w0 ++ [c]) = true) : isCellValid g c.row c.col = true :=
  isWalk_valid g _ h c (by simp)

theorem LoopInv.toPathInv {g : GridS} {n : Nat} {v : Int} {w0 : List CoordS} {c : CoordS}
    {s : SearchState} (h : LoopInv g n v (w0 ++ [c]) s) : PathInv g n v w0 c s := by
  refine ⟨h.1, ?_⟩
  have h2 := h.2
  rw [List.length_append, List.length_singleton] at h2
  exact take_of_take_succ _ _ _ _ h2

theorem enterCell_inv {g : GridS} {n : Nat} {v : Int} {w0 : List CoordS} {row col : Int}
    {s s1 : SearchState} (ml : Nat) (hn : w0.length + 1 + ml = n)
    (h : PathInv g n v w0 ⟨row, col⟩ s) (he : enterCell g n ml row col s = some s1) :
    LoopInv g n v (w0 ++ [⟨row, col⟩]) s1 := by
  obtain ⟨hc, hp⟩ := h
  have hlt : w0.length < n := by omega
  have hval : isCellValid g row col = true := isWalk_last_valid g w0 ⟨row, col⟩ hc.walk
  have hci := cacheIdx_toNat g row col n ml hval
  have hcl := cellIdx_lt g row col hval
  unfold enterCell at he
  simp only at he
  split at he
  · exact absurd he (by simp)
  · have hs1 := (Option.some.inj he).symm
    have hlen : s.curPath.len = (w0.length : Int) + 1 := by
      have := hc.len_eq
      simpa using this
    have hidx : (s.curPath.len - 1).toNat = w0.length := by omega
    have htake : (s.curPath.path.set w0.length (some (CoordS.mk row col))).take (w0.length + 1)
        = (w0 ++ [CoordS.mk row col]).map some := by
      rw [take_set_self _ _ _ _ (by rw [hc.pathLen]; exact hlt) hp]
      simp
    have hlen2 : s.curPath.len.toNat = w0.length + 1 := by omega
    have hcpos : 1 ≤ s.curPath.cover := by
      rw [hc.cover_eq]
      exact_mod_cast distinctCells_pos _ (isWalk_ne_nil g _ hc.walk)
    subst hs1
    refine ⟨⟨?_, ?_, hc.walk, ?_, hc.visited, hc.visLen, hc.stamps, ?_, ?_, ?_⟩, ?_⟩
    · simp [hc.pathLen]
    · exact hc.len_eq
    · exact hc.cover_eq
    · simp only [hidx, hlen2]
      split
      · refine ⟨?_, Or.inr ⟨w0 ++ [⟨row, col⟩], hc.walk, ?_, hc.len_eq, hc.cover_eq, ?_⟩⟩
        · have := hc.best.1
          simp only [copyPath, List.length_append, List.length_take, List.length_set,
            List.length_drop, hc.pathLen]
          omega
        · simp only [List.length_append, List.length_singleton]
          omega
        · simp only [copyPath, List.length_append, List.length_singleton]
          rw [List.take_append_of_le_length (by
            simp only [List.length_take, List.length_set, hc.pathLen]; omega)]
          rw [List.take_take, Nat.min_self]
          exact htake
      · exact hc.best
    · simp [hc.cacheLen]
    · intro i m hi hm
      simp only [cacheAt, hci]
      by_cases hj : (getCellIdx g row col).toNat * n + ml = i * n + m
      · obtain ⟨_, hmm⟩ := flat_inj (by omega) hm hj
        rw [← hj, getD_set_eq _ _ _ _ (by rw [hc.cacheLen]; exact flat_lt hcl (by omega))]
        intro _
        unfold Dominates
        split
        · right
          exact ⟨rfl, by simp only; omega⟩
        · omega
      · rw [getD_set_ne _ _ _ _ _ hj]
        intro hpos
        have hd := hc.dom i m hi hm hpos
        unfold Dominates cacheAt at hd
        unfold Dominates
        split
        · simp only
          omega
        · exact hd
    · simp only [hidx, List.length_append, List.length_singleton]
      exact htake

theorem getD_mem_or_default (l : List Int) (i : Nat) (hi : i < l.length) : l.getD i 0 ∈ l := by
  rw [List.getD_eq_getElem _ _ hi]
  exact List.getElem_mem hi

/-- The direction loop body is a move, the recursive call, and the backtrack. -/
theorem moveDir_eq (g : GridS) (v : Int) (recur : Int → Int → SearchState → SearchState)
    (row col : Int) (s : SearchState) (d : CoordS) :
    moveDir g v recur row col s d =
      if isCellValid g (row + d.row) (col + d.col) = true then
        retreat g (row + d.row) (col + d.col)
          (decide (s.visitedCells.getD (getCellIdx g (row + d.row) (col + d.col)).toNat 0 ≠ v))
          (recur (row + d.row) (col + d.col) (advance g v (row + d.row) (col + d.col) s))
      else s := by
  unfold moveDir advance retreat
  by_cases h : isCellValid g (row + d.row) (col + d.col) = true <;> simp [h]

theorem advance_inv {g : GridS} {n : Nat} {v : Int} {w0 : List CoordS} {c : CoordS}
    {s : SearchState} (b : CoordS) (hval : isCellValid g b.row b.col = true)
    (hadj : adjacent c b = true) (h : LoopInv g n v (w0 ++ [c]) s) :
    PathInv g n v (w0 ++ [c]) b (advance g v b.row b.col s) := by
  obtain ⟨hc, hp⟩ := h
  have hmem := hc.visited b hval
  have hidx : (getCellIdx g b.row b.col).toNat < s.visitedCells.length := by
    rw [hc.visLen]
    exact cellIdx_lt g _ _ hval
  have hwalk : isWalk g ((w0 ++ [c]) ++ [b]) = true := isWalk_snoc g b hval w0 c hc.walk hadj
  unfold advance
  refine ⟨⟨hc.pathLen, ?_, hwalk, ?_, ?_, ?_, ?_, hc.best, hc.cacheLen, hc.dom⟩, hp⟩
  · simp only [hc.len_eq, List.length_append, List.length_singleton]
    push_cast
    ring
  · by_cases hu : s.visitedCells.getD (getCellIdx g b.row b.col).toNat 0 = v
    · simp only [hu, ne_eq, not_true_eq_false, decide_False, Bool.false_eq_true, if_false]
      rw [distinctCells_snoc_of_mem _ _ (hmem.mp hu)]
      exact hc.cover_eq
    · simp only [hu, ne_eq, not_false_eq_true, decide_True, if_true]
      rw [distinctCells_snoc_of_not_mem _ _ (fun hm => hu (hmem.mpr hm)), hc.cover_eq]
      push_cast
      ring
  · intro c1 hc1
    simp only
    by_cases he : (getCellIdx g b.row b.col).toNat = (getCellIdx g c1.row c1.col).toNat
    · have hcc : b = c1 := cellIdx_inj g b c1 hval hc1 he
      rw [← he, getD_set_eq _ _ _ _ hidx]
      simp [← hcc]
    · rw [getD_set_ne _ _ _ _ _ he, hc.visited c1 hc1]
      have hne : c1 ≠ b := by
        intro e
        apply he
        rw [e]
      simp [hne]
  · simp [hc.visLen]
  · intro x hx
    rcases List.mem_or_eq_of_mem_set hx with h1 | h1
    · exact hc.stamps x h1
    · omega

theorem retreat_inv {g : GridS} {n : Nat} {v : Int} (hv : 0 < v) {w : List CoordS}
    {s s2 : SearchState} (b : CoordS) (hval : isCellValid g b.row b.col = true)
    (h : LoopInv g n v w s) (h2 : PathInv g n v w b s2) :
    LoopInv g n v w (retreat g b.row b.col
      (decide (s.visitedCells.getD (getCellIdx g b.row b.col).toNat 0 ≠ v)) s2) := by
  obtain ⟨hc, _⟩ := h
  obtain ⟨hc2, hp2⟩ := h2
  have hmem := hc.visited b hval
  have hidx2 : (getCellIdx g b.row b.col).toNat < s2.visitedCells.length := by
    rw [hc2.visLen]
    exact cellIdx_lt g _ _ hval
  unfold retreat
  by_cases hu : s.visitedCells.getD (getCellIdx g b.row b.col).toNat 0 = v
  · have hin := hmem.mp hu
    simp only [hu, ne_eq, not_true_eq_false, decide_False, Bool.false_eq_true, if_false]
    refine ⟨⟨hc2.pathLen, ?_, hc.walk, ?_, ?_, hc2.visLen, hc2.stamps, hc2.best, hc2.cacheLen,
      hc2.dom⟩, hp2⟩
    · simp only [hc2.len_eq, List.length_append, List.length_singleton]
      push_cast
      ring
    · rw [hc2.cover_eq, distinctCells_snoc_of_mem _ _ hin]
    · intro c1 hc1
      rw [hc2.visited c1 hc1]
      constructor
      · intro hm
        rcases List.mem_append.mp hm with h3 | h3
        · exact h3
        · rw [List.mem_singleton.mp h3]
          exact hin
      · intro hm
        exact List.mem_append.mpr (Or.inl hm)
  · have hnm : b ∉ w := fun hm => hu (hmem.mpr hm)
    simp only [hu, ne_eq, not_false_eq_true, decide_True, if_true]
    refine ⟨⟨hc2.pathLen, ?_, hc.walk, ?_, ?_, ?_, ?_, hc2.best, hc2.cacheLen, hc2.dom⟩, hp2⟩
    · simp only [hc2.len_eq, List.length_append, List.length_singleton]
      push_cast
      ring
    · rw [hc2.cover_eq, distinctCells_snoc_of_not_mem _ _ hnm]
      push_cast
      ring
    · intro c1 hc1
      have h2 := hc2.visited c1 hc1
      simp only
      by_cases he : (getCellIdx g b.row b.col).toNat = (getCellIdx g c1.row c1.col).toNat
      · have hcc : b = c1 := cellIdx_inj g b c1 hval hc1 he
        rw [← he, getD_set_eq _ _ _ _ hidx2, ← hcc]
        constructor
        · intro h0
          omega
        · intro hm
          exact absurd hm hnm
      · rw [getD_set_ne _ _ _ _ _ he, h2]
        have hne : c1 ≠ b := by
          intro e
          apply he
          rw [e]
        simp [hne]
    · simp [hc2.visLen]
    · intro x hx
      rcases List.mem_or_eq_of_mem_set hx with h1 | h1
      · exact hc2.stamps x h1
      · omega

theorem moveDir_inv {g : GridS} {n : Nat} {v : Int} (hv : 0 < v) {w0 : List CoordS}
    {row col : Int} {s : SearchState} (recur : Int → Int → SearchState → SearchState)
    (d : CoordS) (hd : d ∈ dirs)
    (hrec : ∀ (r c : Int) (s1 : SearchState),
      PathInv g n v (w0 ++ [⟨row, col⟩]) ⟨r, c⟩ s1 →
        PathInv g n v (w0 ++ [⟨row, col⟩]) ⟨r, c⟩ (recur r c s1))
    (h : LoopInv g n v (w0 ++ [⟨row, col⟩]) s) :
    LoopInv g n v (w0 ++ [⟨row, col⟩]) (moveDir g v recur row col s d) := by
  rw [moveDir_eq]
  split
  next hval =>
    exact retreat_inv hv ⟨row + d.row, col + d.col⟩ hval h
      (hrec _ _ _ (advance_inv ⟨row + d.row, col + d.col⟩ hval
        (adjacent_of_dir ⟨row, col⟩ d hd) h))
  · exact h

theorem foldl_inv {α β : Type} (P : α → Prop) (f : α → β → α) :
    ∀ (l : List β), (∀ a, ∀ b ∈ l, P a → P (f a b)) → ∀ a, P a → P (l.foldl f a)
  | [], _, _, ha => ha
  | b :: t, h, a, ha =>
    foldl_inv P f t (fun a1 b1 hb1 => h a1 b1 (List.mem_cons_of_mem _ hb1)) (f a b)
      (h a b (List.mem_cons_self _ _) ha)

/-- The search invariant is preserved by a whole call of `findPath`. -/
theorem findPath_inv {g : GridS} {n : Nat} {v : Int} (hv : 0 < v) :
    ∀ (ml : Nat) (w0 : List CoordS) (row col : Int) (s : SearchState),
      w0.length + 1 + ml = n → PathInv g n v w0 ⟨row, col⟩ s →
        PathInv g n v w0 ⟨row, col⟩ (findPath g n v ml row col s)
  | 0, w0, row, col, s, hn, h => by
    unfold findPath
    split
    · exact h
    next s1 he => exact (enterCell_inv 0 hn h he).toPathInv
  | ml + 1, w0, row, col, s, hn, h => by
    unfold findPath
    split
    · exact h
    next s1 he =>
      have h1 := enterCell_inv (ml + 1) hn h he
      apply LoopInv.toPathInv
      refine foldl_inv (LoopInv g n v (w0 ++ [⟨row, col⟩])) _ dirs ?_ s1 h1
      intro _ d hd ha
      refine moveDir_inv hv _ d hd ?_ ha
      intro r c s2 hs2
      exact findPath_inv hv ml (w0 ++ [⟨row, col⟩]) r c s2
        (by simp only [List.length_append, List.length_singleton]; omega) hs2

theorem initState_inv (g : GridS) (n : Nat) : SolveInv g n (initState g n) := by
  refine ⟨by simp [initState], by simp [initState], ?_, by simp [initState], ?_,
    by simp [initState], ?_⟩
  · intro x hx
    simp only [initState] at hx
    rw [List.eq_of_mem_replicate hx]
    simp [initState]
  · exact ⟨by simp [initState], Or.inl rfl⟩
  · intro i m _ _ hpos
    exfalso
    simp only [cacheAt, initState] at hpos
    rw [getD_replicate] at hpos
    exact absurd hpos (by decide)

theorem startCell_eq (g : GridS) (n : Nat) (row col : Nat) (st : SolveState) :
    startCell g n row st col =
      if cellAt g row col ≠ 0 then st
      else
        { mem := findPath g n (st.visitId + 1) (n - 1) row col (startState g row col st)
          visitId := st.visitId + 1 } := rfl

theorem startState_inv {g : GridS} {n : Nat} (row col : Nat)
    (hr : row < g.rows) (hc : col < g.cols) (st : SolveState) (h : SolveInv g n st)
    (hcell : cellAt g row col = 0) :
    PathInv g n (st.visitId + 1) [] ⟨row, col⟩ (startState g row col st) := by
  have hval : isCellValid g row col = true := by
    rw [isCellValid_iff]
    exact ⟨by omega, by omega, by omega, by omega, hcell⟩
  have hidx : (getCellIdx g row col).toNat < st.mem.visitedCells.length := by
    rw [h.visLen]
    exact cellIdx_lt g _ _ hval
  unfold startState
  refine ⟨⟨by simp [h.pathLen], by simp, by simpa [isWalk] using hval, ?_, ?_,
    by simp [h.visLen], ?_, h.best, h.cacheLen, h.dom⟩, by simp⟩
  · simp [distinctCells]
  · intro c1 hc1
    simp only [List.nil_append, List.mem_singleton]
    by_cases he : (getCellIdx g row col).toNat = (getCellIdx g c1.row c1.col).toNat
    · have hcc : (⟨row, col⟩ : CoordS) = c1 := cellIdx_inj g ⟨row, col⟩ c1 hval hc1 he
      rw [← he, getD_set_eq _ _ _ _ hidx]
      simp [← hcc]
    · rw [getD_set_ne _ _ _ _ _ he]
      have hi1 : (getCellIdx g c1.row c1.col).toNat < st.mem.visitedCells.length := by
        rw [h.visLen]
        exact cellIdx_lt g _ _ hc1
      have := h.stamps _ (getD_mem_or_default _ _ hi1)
      constructor
      · intro e
        omega
      · intro e
        exact absurd (by rw [e]) he
  · intro x hx
    rcases List.mem_or_eq_of_mem_set hx with h1 | h1
    · have := h.stamps x h1
      omega
    · omega

theorem startCell_inv {g : GridS} {n : Nat} (hn : 1 ≤ n) (row col : Nat)
    (hr : row < g.rows) (hc : col < g.cols) (st : SolveState) (h : SolveInv g n st) :
    SolveInv g n (startCell g n row st col) := by
  rw [startCell_eq]
  split
  · exact h
  next hcell =>
    have hpre := startState_inv row col hr hc st h (by simpa using hcell)
    obtain ⟨hc2, _⟩ := findPath_inv (by have := h.idPos; omega) (n - 1) [] row col _
      (by simp only [List.length_nil]; omega) hpre
    exact ⟨hc2.pathLen, hc2.visLen, hc2.stamps, by have := h.idPos; simp only; omega, hc2.best,
      hc2.cacheLen, hc2.dom⟩

theorem searchAll_inv {g : GridS} {n : Nat} (hn : 1 ≤ n) : SolveInv g n (searchAll g n) := by
  unfold searchAll
  refine foldl_inv (SolveInv g n) _ (List.range g.rows) ?_ _ (initState_inv g n)
  intro st row hrow hst
  refine foldl_inv (SolveInv g n) _ (List.range g.cols) ?_ _ hst
  intro st1 col hcol hst1
  exact startCell_inv hn row col (List.mem_range.mp hrow) (List.mem_range.mp hcol) st1 hst1

/-! ## Consequences for the reported record -/

theorem mem_freeCells (g : GridS) (c : CoordS) :
    c ∈ freeCells g ↔ isCellValid g c.row c.col = true := by
  rw [isCellValid_iff]
  unfold freeCells
  simp only [List.mem_flatMap, List.mem_range, List.mem_map, List.mem_filter,
    decide_eq_true_eq]
  constructor
  · rintro ⟨r, hr, k, ⟨hk, hz⟩, rfl⟩
    exact ⟨by simp, by simpa using hr, by simp, by simpa using hk, hz⟩
  · rintro ⟨h1, h2, h3, h4, h5⟩
    refine ⟨c.row.toNat, by omega, c.col.toNat, ⟨by omega, ?_⟩, ?_⟩
    · rw [Int.toNat_of_nonneg h1, Int.toNat_of_nonneg h3]
      exact h5
    · rw [Int.toNat_of_nonneg h1, Int.toNat_of_nonneg h3]

theorem distinctCells_le_numFreeCells (g : GridS) (w : List CoordS)
    (h : isWalk g w = true) : distinctCells w ≤ numFreeCells g := by
  rw [distinctCells_eq_card]
  unfold numFreeCells
  calc w.toFinset.card ≤ (freeCells g).toFinset.card := by
        apply Finset.card_le_card
        intro c hc
        rw [List.mem_toFinset] at hc ⊢
        exact (mem_freeCells g c).mpr (isWalk_valid g w h c hc)
    _ ≤ (freeCells g).length := List.toFinset_card_le _

theorem exists_free_of_pos (g : GridS) (h : 1 ≤ numFreeCells g) :
    ∃ c : CoordS, isCellValid g c.row c.col = true := by
  unfold numFreeCells at h
  cases hfc : freeCells g with
  | nil => rw [hfc] at h; simp at h
  | cons c t =>
    exact ⟨c, (mem_freeCells g c).mp (by rw [hfc]; exact List.mem_cons_self _ _)⟩

/-- The record that a run of the search leaves in `bestPath` is the length and
coverage of a walk of the grid of at most `numMoves` cells. -/
theorem searchAll_realised (g : GridS) (n : Nat) (hn : 1 ≤ n) (hfree : 1 ≤ numFreeCells g) :
    ∃ w : List CoordS, isWalk g w = true ∧ w.length ≤ n ∧
      (searchAll g n).mem.bestPath.len = (w.length : Int) ∧
      (searchAll g n).mem.bestPath.cover = (distinctCells w : Int) := by
  obtain ⟨_, hb⟩ := (searchAll_inv (g := g) hn).best
  rcases hb with h1 | ⟨w, hw, hl, hlen, hcov, _⟩
  · obtain ⟨c, hc⟩ := exists_free_of_pos g hfree
    refine ⟨[c], by simpa [isWalk] using hc, by simpa using hn, by simp [h1], ?_⟩
    rw [h1]
    simp [distinctCells]
  · exact ⟨w, hw, hl, hlen, hcov⟩

theorem solve_searched (g : GridS) (n : Nat) (hguard : g.numBlockedCells < g.rows * g.cols) :
    solve g n = SolveResult.searched (searchAll g n) := by
  unfold solve
  rw [if_neg (by omega)]

/-- The record that a run leaves in `bestPath` is either the initial record of
line 175, whose buffer was never written, or a copy of a walk of the grid. -/
theorem solve_best_initial_or_realised (g : GridS) (n : Nat) (hn : 1 ≤ n)
    (hguard : g.numBlockedCells < g.rows * g.cols) :
    ∃ st, solve g n = SolveResult.searched st ∧
      (st.mem.bestPath = PathS.mk 1 1 (List.replicate n none) ∨
        Realised g n st.mem.bestPath) :=
  ⟨_, solve_searched g n hguard, (searchAll_inv (g := g) hn).best.2⟩

/-! ## Runs in which no candidate beats the initial record -/

theorem enterCell_best_unchanged {g : GridS} {n ml : Nat} {row col : Int} {s s1 : SearchState}
    (h1 : s.curPath.cover = 1) (h2 : s.curPath.len = 1)
    (h3 : s.bestPath.cover = 1) (h4 : s.bestPath.len = 1)
    (he : enterCell g n ml row col s = some s1) :
    s1.bestPath = s.bestPath := by
  unfold enterCell at he
  simp only at he
  split at he
  · exact absurd he (by simp)
  · have hs1 := (Option.some.inj he).symm
    subst hs1
    simp only [h1, h2, h3, h4]
    simp

theorem moveDir_invalid (g : GridS) (v : Int) (recur : Int → Int → SearchState → SearchState)
    (row col : Int) (s : SearchState) (d : CoordS)
    (h : isCellValid g (row + d.row) (col + d.col) = false) :
    moveDir g v recur row col s d = s := by
  unfold moveDir
  simp [h]

theorem isEnclosedCell_dir {g : GridS} {row col : Int} (h : isEnclosedCell g row col = true)
    (d : CoordS) (hd : d ∈ dirs) : isCellValid g (row + d.row) (col + d.col) = false := by
  unfold isEnclosedCell at h
  rw [List.all_eq_true] at h
  simpa using h d hd

theorem findPath_best_of_enclosed {g : GridS} {n : Nat} {v : Int} {row col : Int}
    {s : SearchState} (ml : Nat) (henc : isEnclosedCell g row col = true)
    (h1 : s.curPath.cover = 1) (h2 : s.curPath.len = 1)
    (h3 : s.bestPath.cover = 1) (h4 : s.bestPath.len = 1) :
    (findPath g n v ml row col s).bestPath = s.bestPath := by
  cases ml with
  | zero =>
    unfold findPath
    split
    · rfl
    next s1 he => exact enterCell_best_unchanged h1 h2 h3 h4 he
  | succ m =>
    unfold findPath
    split
    · rfl
    next s1 he =>
      have hb := enterCell_best_unchanged h1 h2 h3 h4 he
      have hfold : dirs.foldl (moveDir g v (findPath g n v m) row col) s1 = s1 := by
        simp only [dirs, List.foldl_cons, List.foldl_nil]
        rw [moveDir_invalid g v _ row col s1 ⟨1, 0⟩ (isEnclosedCell_dir henc _ (by simp [dirs])),
          moveDir_invalid g v _ row col s1 ⟨-1, 0⟩ (isEnclosedCell_dir henc _ (by simp [dirs])),
          moveDir_invalid g v _ row col s1 ⟨0, 1⟩ (isEnclosedCell_dir henc _ (by simp [dirs])),
          moveDir_invalid g v _ row col s1 ⟨0, -1⟩ (isEnclosedCell_dir henc _ (by simp [dirs]))]
      rw [hfold]
      exact hb

theorem findPath_zero_best {g : GridS} {n : Nat} {v : Int} {row col : Int}
    {s : SearchState}
    (h1 : s.curPath.cover = 1) (h2 : s.curPath.len = 1)
    (h3 : s.bestPath.cover = 1) (h4 : s.bestPath.len = 1) :
    (findPath g n v 0 row col s).bestPath = s.bestPath := by
  unfold findPath
  split
  · rfl
  next s1 he => exact enterCell_best_unchanged h1 h2 h3 h4 he

/-- If no top-level call of `findPath` changes a best record that is still
`{1, 1, _}`, the run ends with the initial best record. -/
theorem searchAll_best_initial (g : GridS) (n : Nat)
    (hstep : ∀ (row col : Nat) (v : Int) (s : SearchState), row < g.rows → col < g.cols →
      cellAt g row col = 0 → s.curPath.cover = 1 → s.curPath.len = 1 →
      s.bestPath.cover = 1 → s.bestPath.len = 1 →
      (findPath g n v (n - 1) row col s).bestPath = s.bestPath) :
    (searchAll g n).mem.bestPath = PathS.mk 1 1 (List.replicate n none) := by
  unfold searchAll
  refine foldl_inv
    (fun st : SolveState =>
      st.mem.bestPath = PathS.mk 1 1 (List.replicate n none))
    _ (List.range g.rows) ?_ _ (by simp [initState])
  intro st row hrow hst
  refine foldl_inv
    (fun st : SolveState =>
      st.mem.bestPath = PathS.mk 1 1 (List.replicate n none))
    _ (List.range g.cols) ?_ _ hst
  intro st1 col hcol hst1
  unfold startCell
  split
  · exact hst1
  next hcell =>
    simp only
    rw [hstep row col _ _ (List.mem_range.mp hrow) (List.mem_range.mp hcol)
      (by simpa using hcell) rfl rfl (by simp [hst1]) (by simp [hst1])]
    exact hst1

/-! ## Counting the listed cells -/

theorem length_ge_of_all_listed (rows cols : Nat) (bl : List CoordS)
    (h : ∀ r c : Nat, r < rows → c < cols → (CoordS.mk r c) ∈ bl) :
    rows * cols ≤ bl.length := by
  have hinj : Function.Injective (fun p : Nat × Nat => CoordS.mk (p.1 : Int) (p.2 : Int)) := by
    intro p q hpq
    simp only [CoordS.mk.injEq, Nat.cast_inj] at hpq
    exact Prod.ext hpq.1 hpq.2
  have hsub : (Finset.range rows ×ˢ Finset.range cols).image
      (fun p : Nat × Nat => CoordS.mk (p.1 : Int) (p.2 : Int)) ⊆ bl.toFinset := by
    intro x hx
    rw [Finset.mem_image] at hx
    obtain ⟨p, hp, rfl⟩ := hx
    rw [Finset.mem_product, Finset.mem_range, Finset.mem_range] at hp
    rw [List.mem_toFinset]
    exact h p.1 p.2 hp.1 hp.2
  calc rows * cols = ((Finset.range rows ×ˢ Finset.range cols).image
        (fun p : Nat × Nat => CoordS.mk (p.1 : Int) (p.2 : Int))).card := by
        rw [Finset.card_image_of_injective _ hinj, Finset.card_product, Finset.card_range,
          Finset.card_range]
    _ ≤ bl.toFinset.card := Finset.card_le_card hsub
    _ ≤ bl.length := List.toFinset_card_le _

/-! ## Runs with a larger budget -/

theorem enterCell_none {g : GridS} {n : Nat} {ml : Nat} {row col : Int} {s : SearchState}
    (h : s.cacheMap.getD (getCacheMapIdx g row col n ml).toNat 0 ≥ s.curPath.cover) :
    enterCell g n ml row col s = none := by
  unfold enterCell
  simp only
  rw [if_pos h]

theorem enterCell_some {g : GridS} {n : Nat} (ml : Nat) {row col : Int} {s : SearchState}
    (h : ¬ s.cacheMap.getD (getCacheMapIdx g row col n ml).toNat 0 ≥ s.curPath.cover) :
    ∃ s1, enterCell g n ml row col s = some s1 ∧
      s1.cacheMap = s.cacheMap.set (getCacheMapIdx g row col n ml).toNat s.curPath.cover := by
  unfold enterCell
  simp only
  rw [if_neg h]
  exact ⟨_, rfl, rfl⟩

theorem foldl_inv2 {α β γ : Type} (R : α → β → Prop) (f : α → γ → α) (h : β → γ → β) :
    ∀ (l : List γ), (∀ a b, ∀ x ∈ l, R a b → R (f a x) (h b x)) →
      ∀ a b, R a b → R (l.foldl f a) (l.foldl h b)
  | [], _, _, _, hab => hab
  | x :: t, hstep, a, b, hab =>
    foldl_inv2 R f h t (fun a1 b1 y hy => hstep a1 b1 y (List.mem_cons_of_mem _ hy))
      (f a x) (h b x) (hstep a b x (List.mem_cons_self _ _) hab)

theorem CacheFrame.refl (g : GridS) (n k : Nat) (c : List Int) : CacheFrame g n k c c :=
  fun _ _ _ _ _ => rfl

theorem CacheFrame.trans {g : GridS} {n k : Nat} {c3 c2 c1 : List Int}
    (h32 : CacheFrame g n k c3 c2) (h21 : CacheFrame g n k c2 c1) : CacheFrame g n k c3 c1 :=
  fun i m hi hk hm => (h32 i m hi hk hm).trans (h21 i m hi hk hm)

/-- A call of `findPath` with fewer than `k` moves left writes no memo slot
with `k` or more moves left. -/
theorem findPath_frame {g : GridS} {n k : Nat} {v : Int} (hv : 0 < v) :
    ∀ (ml : Nat) (w0 : List CoordS) (row col : Int) (s : SearchState),
      ml < k → w0.length + 1 + ml = n → PathInv g n v w0 ⟨row, col⟩ s →
        CacheFrame g n k (findPath g n v ml row col s).cacheMap s.cacheMap := by
  intro ml
  induction ml with
  | zero =>
    intro w0 row col s hk hn h
    have hval := isWalk_last_valid g w0 ⟨row, col⟩ h.1.walk
    unfold findPath
    split
    · exact CacheFrame.refl g n k _
    next s1 he =>
      by_cases ht : s.cacheMap.getD (getCacheMapIdx g row col n (0 : Nat)).toNat 0
          ≥ s.curPath.cover
      · rw [enterCell_none ht] at he
        exact absurd he (by simp)
      · obtain ⟨s2, he2, hc2⟩ := enterCell_some (g := g) 0 ht
        rw [he2] at he
        have := Option.some.inj he
        subst this
        intro i m hi hkm hm
        rw [hc2, cacheIdx_toNat g row col n 0 hval]
        unfold cacheAt
        rw [getD_set_ne]
        intro e
        have := (flat_inj (by omega) hm e).2
        omega
  | succ ml ih =>
    intro w0 row col s hk hn h
    have hval := isWalk_last_valid g w0 ⟨row, col⟩ h.1.walk
    unfold findPath
    split
    · exact CacheFrame.refl g n k _
    next s1 he =>
      have hloop := enterCell_inv (ml + 1) hn h he
      have hframe1 : CacheFrame g n k s1.cacheMap s.cacheMap := by
        by_cases ht : s.cacheMap.getD (getCacheMapIdx g row col n ((ml + 1 : Nat) : Int)).toNat 0
            ≥ s.curPath.cover
        · rw [enterCell_none ht] at he
          exact absurd he (by simp)
        · obtain ⟨s2, he2, hc2⟩ := enterCell_some (g := g) (ml + 1) ht
          rw [he2] at he
          have := Option.some.inj he
          subst this
          intro i m hi hkm hm
          rw [hc2, cacheIdx_toNat g row col n (ml + 1) hval]
          unfold cacheAt
          rw [getD_set_ne]
          intro e
          have := (flat_inj (by omega) hm e).2
          omega
      have hfold := foldl_inv
        (fun s2 : SearchState => LoopInv g n v (w0 ++ [⟨row, col⟩]) s2 ∧
          CacheFrame g n k s2.cacheMap s.cacheMap)
        (moveDir g v (findPath g n v ml) row col) dirs ?_ s1 ⟨hloop, hframe1⟩
      · exact hfold.2
      · intro a d hd ⟨ha, hfa⟩
        refine ⟨moveDir_inv hv _ d hd (fun r c s2 hs2 => findPath_inv hv ml _ r c s2
          (by simp only [List.length_append, List.length_singleton]; omega) hs2) ha, ?_⟩
        rw [moveDir_eq]
        split
        next hvd =>
          have hadv := advance_inv (g := g) (n := n) (v := v) ⟨row + d.row, col + d.col⟩ hvd
            (adjacent_of_dir ⟨row, col⟩ d hd) ha
          have := ih (w0 ++ [⟨row, col⟩]) (row + d.row) (col + d.col) _ (by omega)
            (by simp only [List.length_append, List.length_singleton]; omega) hadv
          exact CacheFrame.trans this hfa
        · exact hfa

theorem enterCell_sim {g : GridS} {n k : Nat} {v : Int} {w0 : List CoordS} {row col : Int}
    {sN sn : SearchState} (ml : Nat) (hn : w0.length + 1 + ml = n)
    (hN : PathInv g (n + k) v w0 ⟨row, col⟩ sN) (hs : PathInv g n v w0 ⟨row, col⟩ sn)
    (hsim : CacheSim g n k sN.cacheMap sn.cacheMap) :
    (enterCell g (n + k) (ml + k) row col sN = none ∧ enterCell g n ml row col sn = none) ∨
      ∃ s1N s1n, enterCell g (n + k) (ml + k) row col sN = some s1N ∧
        enterCell g n ml row col sn = some s1n ∧ CacheSim g n k s1N.cacheMap s1n.cacheMap := by
  have hval := isWalk_last_valid g w0 ⟨row, col⟩ hs.1.walk
  have hcl := cellIdx_lt g row col hval
  have hiN := cacheIdx_toNat g row col (n + k) (ml + k) hval
  have hin := cacheIdx_toNat g row col n ml hval
  have hcov : sN.curPath.cover = sn.curPath.cover := by rw [hN.1.cover_eq, hs.1.cover_eq]
  have hslot := hsim (getCellIdx g row col).toNat ml hcl (by omega)
  unfold cacheAt at hslot
  by_cases ht : sn.cacheMap.getD (getCacheMapIdx g row col n (ml : Nat)).toNat 0
      ≥ sn.curPath.cover
  · left
    refine ⟨enterCell_none ?_, enterCell_none ht⟩
    rw [hiN, hslot, hcov, ← hin]
    exact ht
  · right
    have htN : ¬ sN.cacheMap.getD (getCacheMapIdx g row col (n + k) ((ml + k : Nat) : Int)).toNat 0
        ≥ sN.curPath.cover := by
      rw [hiN, hslot, hcov, ← hin]
      exact ht
    obtain ⟨s1N, heN, hcN⟩ := enterCell_some (g := g) (ml + k) htN
    obtain ⟨s1n, hen, hcn⟩ := enterCell_some (g := g) ml ht
    refine ⟨s1N, s1n, heN, hen, ?_⟩
    intro i m hi hm
    rw [hcN, hcn, hiN, hin]
    unfold cacheAt
    by_cases hj : (getCellIdx g row col).toNat * n + ml = i * n + m
    · obtain ⟨h1, h2⟩ := flat_inj (by omega) hm hj
      subst h1 h2
      rw [getD_set_eq _ _ _ _ (by rw [hN.1.cacheLen]; exact flat_lt hcl (by omega)),
        getD_set_eq _ _ _ _ (by rw [hs.1.cacheLen]; exact flat_lt hcl (by omega))]
      exact hcov
    · have hjN : (getCellIdx g row col).toNat * (n + k) + (ml + k) ≠ i * (n + k) + (m + k) := by
        intro e
        obtain ⟨h1, h2⟩ := flat_inj (by omega) (by omega) e
        apply hj
        have : ml = m := by omega
        rw [h1, this]
      rw [getD_set_ne _ _ _ _ _ hjN, getD_set_ne _ _ _ _ _ hj]
      exact hsim i m hi hm

theorem CacheSim.of_frame {g : GridS} {n k : Nat} {c2 c1 cn : List Int}
    (hf : CacheFrame g (n + k) k c2 c1) (hsim : CacheSim g n k c1 cn) : CacheSim g n k c2 cn :=
  fun i m hi hm => (hf i (m + k) hi (by omega) (by omega)).trans (hsim i m hi hm)

/-- Two runs on the same grid with budgets `n + k` and `n`, at the same point
of the same walk, keep their memo tables in agreement. -/
theorem findPath_sim {g : GridS} {n k : Nat} {v : Int} (hv : 0 < v) :
    ∀ (ml : Nat) (w0 : List CoordS) (row col : Int) (sN sn : SearchState),
      w0.length + 1 + ml = n →
      PathInv g (n + k) v w0 ⟨row, col⟩ sN → PathInv g n v w0 ⟨row, col⟩ sn →
      CacheSim g n k sN.cacheMap sn.cacheMap →
        CacheSim g n k (findPath g (n + k) v (ml + k) row col sN).cacheMap
          (findPath g n v ml row col sn).cacheMap := by
  intro ml
  induction ml with
  | zero =>
    intro w0 row col sN sn hn hN hs hsim
    have hrhs : ∀ o : Option SearchState, enterCell g n 0 row col sn = o →
        findPath g n v 0 row col sn = o.getD sn := by
      intro o ho
      unfold findPath
      rw [ho]
      cases o <;> rfl
    rcases enterCell_sim 0 hn hN hs hsim with ⟨heN, hen⟩ | ⟨s1N, s1n, heN, hen, hsim1⟩
    · rw [hrhs none hen]
      have hlhs : findPath g (n + k) v (0 + k) row col sN = sN := by
        cases hk : 0 + k with
        | zero =>
          rw [hk] at heN
          unfold findPath
          rw [heN]
        | succ k1 =>
          rw [hk] at heN
          unfold findPath
          rw [heN]
      rw [hlhs]
      exact hsim
    · rw [hrhs (some s1n) hen]
      simp only [Option.getD_some]
      cases hk : 0 + k with
      | zero =>
        rw [hk] at heN
        unfold findPath
        rw [heN]
        exact hsim1
      | succ k1 =>
        have hk1 : k = k1 + 1 := by omega
        have hloop := enterCell_inv (0 + k) (by omega) hN heN
        rw [hk] at heN
        unfold findPath
        rw [heN]
        simp only
        have hfold := foldl_inv
          (fun s2 : SearchState => LoopInv g (n + k) v (w0 ++ [⟨row, col⟩]) s2 ∧
            CacheFrame g (n + k) k s2.cacheMap s1N.cacheMap)
          (moveDir g v (findPath g (n + k) v k1) row col) dirs ?_ s1N
          ⟨hloop, CacheFrame.refl g (n + k) k _⟩
        · exact CacheSim.of_frame hfold.2 hsim1
        · intro a d hd ⟨ha, hfa⟩
          refine ⟨moveDir_inv hv _ d hd (fun r c s2 hs2 => findPath_inv hv k1 _ r c s2
            (by simp only [List.length_append, List.length_singleton]; omega) hs2) ha, ?_⟩
          rw [moveDir_eq]
          split
          next hvd =>
            have hadv := advance_inv (g := g) (n := n + k) (v := v)
              ⟨row + d.row, col + d.col⟩ hvd (adjacent_of_dir ⟨row, col⟩ d hd) ha
            have := findPath_frame (g := g) (n := n + k) (k := k) hv k1
              (w0 ++ [⟨row, col⟩]) (row + d.row) (col + d.col) _ (by omega)
              (by simp only [List.length_append, List.length_singleton]; omega) hadv
            exact CacheFrame.trans this hfa
          · exact hfa
  | succ ml ih =>
    intro w0 row col sN sn hn hN hs hsim
    have hml : ml + 1 + k = (ml + k) + 1 := by omega
    rcases enterCell_sim (ml + 1) hn hN hs hsim with ⟨heN, hen⟩ | ⟨s1N, s1n, heN, hen, hsim1⟩
    · have hloopless : findPath g n v (ml + 1) row col sn = sn := by
        unfold findPath
        rw [hen]
      rw [hloopless]
      rw [hml] at heN ⊢
      unfold findPath
      rw [heN]
      exact hsim
    · have hloopN := enterCell_inv (ml + 1 + k) (by omega) hN heN
      have hloopn := enterCell_inv (ml + 1) hn hs hen
      have hR : findPath g n v (ml + 1) row col sn
          = dirs.foldl (moveDir g v (findPath g n v ml) row col) s1n := by
        rw [findPath, hen]
      rw [hR]
      rw [hml] at heN ⊢
      have hL : findPath g (n + k) v (ml + k + 1) row col sN
          = dirs.foldl (moveDir g v (findPath g (n + k) v (ml + k)) row col) s1N := by
        rw [findPath, heN]
      rw [hL]
      have hfold := foldl_inv2
        (fun (a b : SearchState) => LoopInv g (n + k) v (w0 ++ [⟨row, col⟩]) a ∧
          LoopInv g n v (w0 ++ [⟨row, col⟩]) b ∧ CacheSim g n k a.cacheMap b.cacheMap)
        (moveDir g v (findPath g (n + k) v (ml + k)) row col)
        (moveDir g v (findPath g n v ml) row col) dirs ?_ s1N s1n ⟨hloopN, hloopn, hsim1⟩
      · exact hfold.2.2
      · intro a b d hd ⟨ha, hb, hab⟩
        refine ⟨moveDir_inv hv _ d hd (fun r c s2 hs2 => findPath_inv hv (ml + k) _ r c s2
            (by simp only [List.length_append, List.length_singleton]; omega) hs2) ha,
          moveDir_inv hv _ d hd (fun r c s2 hs2 => findPath_inv hv ml _ r c s2
            (by simp only [List.length_append, List.length_singleton]; omega) hs2) hb, ?_⟩
        rw [moveDir_eq, moveDir_eq]
        split
        next hvd =>
          have hadvN := advance_inv (g := g) (n := n + k) (v := v)
            ⟨row + d.row, col + d.col⟩ hvd (adjacent_of_dir ⟨row, col⟩ d hd) ha
          have hadvn := advance_inv (g := g) (n := n) (v := v)
            ⟨row + d.row, col + d.col⟩ hvd (adjacent_of_dir ⟨row, col⟩ d hd) hb
          exact ih (w0 ++ [⟨row, col⟩]) (row + d.row) (col + d.col) _ _
            (by simp only [List.length_append, List.length_singleton]; omega) hadvN hadvn hab
        · exact hab

theorem startCell_sim {g : GridS} {n k : Nat} (hn : 1 ≤ n) (row col : Nat)
    (hr : row < g.rows) (hc : col < g.cols) (stN stn : SolveState)
    (hN : SolveInv g (n + k) stN) (hs : SolveInv g n stn) (hid : stN.visitId = stn.visitId)
    (hsim : CacheSim g n k stN.mem.cacheMap stn.mem.cacheMap) :
    (startCell g (n + k) row stN col).visitId = (startCell g n row stn col).visitId ∧
      CacheSim g n k (startCell g (n + k) row stN col).mem.cacheMap
        (startCell g n row stn col).mem.cacheMap := by
  rw [startCell_eq, startCell_eq]
  split
  · exact ⟨hid, hsim⟩
  next hcell =>
    have hcell0 : cellAt g row col = 0 := by simpa using hcell
    have hpN := startState_inv row col hr hc stN hN hcell0
    have hpn := startState_inv row col hr hc stn hs hcell0
    rw [hid] at hpN ⊢
    refine ⟨rfl, ?_⟩
    have hml : n + k - 1 = (n - 1) + k := by omega
    simp only
    rw [hml]
    exact findPath_sim (by have := hs.idPos; omega) (n - 1) [] row col _ _
      (by simp only [List.length_nil]; omega) hpN hpn hsim

/-- The memo table of a run with budget `n + k` agrees, on the slots with at
least `k` moves left, with the memo table of the run with budget `n`. -/
theorem searchAll_sim (g : GridS) (n k : Nat) (hn : 1 ≤ n) :
    CacheSim g n k (searchAll g (n + k)).mem.cacheMap (searchAll g n).mem.cacheMap := by
  unfold searchAll
  have hinit : CacheSim g n k (initState g (n + k)).mem.cacheMap (initState g n).mem.cacheMap := by
    intro i m _ _
    simp only [cacheAt, initState]
    rw [getD_replicate, getD_replicate]
  have hfold := foldl_inv2
    (fun (a b : SolveState) => SolveInv g (n + k) a ∧ SolveInv g n b ∧
      a.visitId = b.visitId ∧ CacheSim g n k a.mem.cacheMap b.mem.cacheMap)
    (fun st row => (List.range g.cols).foldl (startCell g (n + k) row) st)
    (fun st row => (List.range g.cols).foldl (startCell g n row) st)
    (List.range g.rows) ?_ (initState g (n + k)) (initState g n)
    ⟨initState_inv g (n + k), initState_inv g n, rfl, hinit⟩
  · exact hfold.2.2.2
  · intro a b row hrow hab
    refine foldl_inv2
      (fun (a b : SolveState) => SolveInv g (n + k) a ∧ SolveInv g n b ∧
        a.visitId = b.visitId ∧ CacheSim g n k a.mem.cacheMap b.mem.cacheMap)
      (startCell g (n + k) row) (startCell g n row) (List.range g.cols) ?_ a b hab
    intro a1 b1 col hcol ⟨h1, h2, h3, h4⟩
    have hr := List.mem_range.mp hrow
    have hc := List.mem_range.mp hcol
    have := startCell_sim hn row col hr hc a1 b1 h1 h2 h3 h4
    exact ⟨startCell_inv (by omega) row col hr hc a1 h1, startCell_inv hn row col hr hc b1 h2,
      this.1, this.2⟩

/-- A memo slot that a run with budget `n` leaves positive bounds the record
reported with any larger budget: the coverage stored for `m` moves left was
reached by a candidate of `n - m` cells. -/
theorem searchAll_dominates (g : GridS) (n k : Nat) (hn : 1 ≤ n) (i m : Nat)
    (hi : i < g.rows * g.cols) (hm : m < n)
    (hpos : 0 < cacheAt (searchAll g n).mem.cacheMap n i m) :
    Dominates (searchAll g (n + k)).mem.bestPath
      (cacheAt (searchAll g n).mem.cacheMap n i m) ((n : Int) - m) := by
  have hsim := searchAll_sim g n k hn i m hi hm
  have hdom := (searchAll_inv (g := g) (n := n + k) (by omega)).dom i (m + k) hi (by omega)
    (by rw [hsim]; exact hpos)
  rw [hsim] at hdom
  have e : (((n + k : Nat) : Int) - ((m + k : Nat) : Int)) = (n : Int) - m := by
    push_cast
    ring
  rw [e] at hdom
  exact hdom

/-! ## Facts about the concrete grids and about filtering the blocked list -/

theorem enclosedGrid_enclosed (row col : Int)
    (h : isCellValid enclosedGrid row col = true) : isEnclosedCell enclosedGrid row col = true := by
  have h1 := (isCellValid_iff _ row col).mp h
  have hr : row < 3 := h1.2.1
  have hc : col < 3 := h1.2.2.2.1
  have hr0 := h1.1
  have hc0 := h1.2.2.1
  interval_cases row <;> interval_cases col <;> first
    | decide
    | exact absurd h (by decide)

theorem foldl_blockCell_filter (rows cols : Nat) (bl : List CoordS) :
    ∀ cells : List (List Int),
      (bl.filter (inGrid rows cols)).foldl (blockCell rows cols) cells
        = bl.foldl (blockCell rows cols) cells := by
  induction bl with
  | nil => intro cells; rfl
  | cons b bl ih =>
    intro cells
    by_cases hb : inGrid rows cols b = true
    · rw [List.filter_cons_of_pos hb, List.foldl_cons, List.foldl_cons, ih]
    · rw [List.filter_cons_of_neg hb, List.foldl_cons, ih]
      congr 1
      unfold blockCell
      rw [if_neg]
      simpa [inGrid] using hb

/-! ## The checked read -/

theorem readCell_eq (g : GridS) (row col : Int) (hshape : MatrixShape g.rows g.cols g.cells)
    (h1 : 0 ≤ row) (h2 : row < g.rows) (h3 : 0 ≤ col) (h4 : col < g.cols) :
    readCell g row col = some (cellAt g row col) := by
  obtain ⟨hl, hr⟩ := hshape
  have hrow : row.toNat < g.cells.length := by omega
  have hrl := hr row.toNat (by omega)
  unfold readCell cellAt
  rw [if_neg (by omega)]
  rw [List.getD_eq_getElem _ _ hrow] at hrl ⊢
  rw [List.getElem?_eq_getElem hrow]
  simp only
  have hcol : col.toNat < (g.cells[row.toNat]).length := by omega
  rw [List.getElem?_eq_getElem hcol, List.getD_eq_getElem _ _ hcol]

/-! ## Restoration by `findPath` -/

theorem enterCell_frame {g : GridS} {n ml : Nat} {row col : Int} {s s1 : SearchState}
    (he : enterCell g n ml row col s = some s1) :
    s1.curPath.cover = s.curPath.cover ∧ s1.curPath.len = s.curPath.len ∧
      s1.visitedCells = s.visitedCells := by
  unfold enterCell at he
  simp only at he
  split at he
  · exact absurd he (by simp)
  · have hs1 := (Option.some.inj he).symm
    subst hs1
    exact ⟨rfl, rfl, rfl⟩

theorem restored_refl (v : Int) (s : SearchState) : Restored v s s :=
  ⟨rfl, rfl, rfl, fun _ => Or.inl rfl⟩

theorem restored_trans {v : Int} {s t u : SearchState} (h1 : Restored v s t)
    (h2 : Restored v t u) : Restored v s u := by
  obtain ⟨a1, a2, a3, a4⟩ := h1
  obtain ⟨b1, b2, b3, b4⟩ := h2
  refine ⟨b1.trans a1, b2.trans a2, b3.trans a3, fun i => ?_⟩
  rcases b4 i with hb | ⟨hb, hb2⟩
  · rcases a4 i with ha | ⟨ha, ha2⟩
    · exact Or.inl (hb.trans ha)
    · exact Or.inr ⟨hb.trans ha, ha2⟩
  · rcases a4 i with ha | ⟨ha, ha2⟩
    · exact Or.inr ⟨hb, by rw [← ha]; exact hb2⟩
    · exact Or.inr ⟨hb, ha2⟩

theorem set_of_length_le {α : Type} (l : List α) (i : Nat) (a : α) (h : ¬ i < l.length) :
    l.set i a = l :=
  List.set_eq_of_length_le (by omega)

theorem getD_set_zero (l : List Int) (i : Nat) : (l.set i 0).getD i 0 = 0 := by
  by_cases h : i < l.length
  · exact getD_set_eq l i 0 0 h
  · simp [List.getD_eq_getElem?_getD, List.getElem?_set, h]

theorem getD_set_same (l : List Int) (i j : Nat) (v : Int) (h : l.getD i 0 = v) :
    (l.set i v).getD j 0 = l.getD j 0 := by
  by_cases hij : i = j
  · subst hij
    by_cases hl : i < l.length
    · rw [getD_set_eq l i v 0 hl, h]
    · rw [set_of_length_le l i v hl]
  · exact getD_set_ne l i j v 0 hij

theorem moveDir_restored (g : GridS) (v : Int)
    (recur : Int → Int → SearchState → SearchState)
    (hrec : ∀ (r c : Int) (x : SearchState), Restored v x (recur r c x))
    (row col : Int) (a : SearchState) (d : CoordS) :
    Restored v a (moveDir g v recur row col a d) := by
  rw [moveDir_eq]
  split
  · obtain ⟨h1, h2, h3, h4⟩ := hrec (row + d.row) (col + d.col)
      (advance g v (row + d.row) (col + d.col) a)
    by_cases hu : a.visitedCells.getD (getCellIdx g (row + d.row) (col + d.col)).toNat 0 = v
    · simp only [retreat, advance, hu, ne_eq, not_true_eq_false, decide_False,
        Bool.false_eq_true, if_false] at h1 h2 h3 h4 ⊢
      refine ⟨by rw [h1], by rw [h2]; ring, by rw [h3]; simp, fun i => ?_⟩
      have := h4 i
      rw [getD_set_same _ _ _ _ hu] at this
      exact this
    · simp only [retreat, advance, hu, ne_eq, not_false_eq_true, decide_True, if_true]
        at h1 h2 h3 h4 ⊢
      refine ⟨by rw [h1]; ring, by rw [h2]; ring, by simp [h3], fun i => ?_⟩
      by_cases hi : (getCellIdx g (row + d.row) (col + d.col)).toNat = i
      · subst hi
        right
        exact ⟨getD_set_zero _ _, hu⟩
      · rw [getD_set_ne _ _ _ _ _ hi]
        have := h4 i
        rw [getD_set_ne _ _ _ _ _ hi] at this
        exact this
  · exact restored_refl v a

/-- Every call of `findPath` restores `curPath.cover`, `curPath.len` and the
visit stamps, a stamp other than the current visit id possibly as `0`. -/
theorem findPath_restored (g : GridS) (n : Nat) (v : Int) :
    ∀ (ml : Nat) (row col : Int) (s : SearchState),
      Restored v s (findPath g n v ml row col s)
  | 0, row, col, s => by
    unfold findPath
    split
    · exact restored_refl v s
    next s1 he =>
      obtain ⟨h1, h2, h3⟩ := enterCell_frame he
      exact ⟨h1, h2, by rw [h3], fun i => Or.inl (by rw [h3])⟩
  | ml + 1, row, col, s => by
    unfold findPath
    split
    · exact restored_refl v s
    next s1 he =>
      obtain ⟨h1, h2, h3⟩ := enterCell_frame he
      have h01 : Restored v s s1 := ⟨h1, h2, by rw [h3], fun i => Or.inl (by rw [h3])⟩
      refine foldl_inv (fun x => Restored v s x) _ dirs ?_ s1 h01
      intro a d _ ha
      exact restored_trans ha (moveDir_restored g v _ (findPath_restored g n v ml) row col a d)

/-! ## The memo table only grows -/

theorem cacheLe_refl (c : List Int) : CacheLe c c := fun _ => le_refl _

theorem cacheLe_trans {c1 c2 c3 : List Int} (h1 : CacheLe c1 c2) (h2 : CacheLe c2 c3) :
    CacheLe c1 c3 := fun i => le_trans (h1 i) (h2 i)

theorem enterCell_cacheLe {g : GridS} {n ml : Nat} {row col : Int} {s s1 : SearchState}
    (he : enterCell g n ml row col s = some s1) : CacheLe s.cacheMap s1.cacheMap := by
  by_cases ht : s.cacheMap.getD (getCacheMapIdx g row col n (ml : Nat)).toNat 0
      ≥ s.curPath.cover
  · rw [enterCell_none ht] at he
    exact absurd he (by simp)
  · obtain ⟨s2, he2, hc2⟩ := enterCell_some (g := g) ml ht
    rw [he2] at he
    have := Option.some.inj he
    subst this
    intro i
    rw [hc2]
    by_cases hi : (getCacheMapIdx g row col n (ml : Nat)).toNat = i
    · subst hi
      by_cases hl : (getCacheMapIdx g row col n (ml : Nat)).toNat < s.cacheMap.length
      · rw [getD_set_eq _ _ _ _ hl]
        omega
      · rw [set_of_length_le _ _ _ hl]
    · rw [getD_set_ne _ _ _ _ _ hi]

theorem moveDir_cacheMap (g : GridS) (v : Int) (recur : Int → Int → SearchState → SearchState)
    (row col : Int) (a : SearchState) (d : CoordS) :
    (moveDir g v recur row col a d).cacheMap =
      if isCellValid g (row + d.row) (col + d.col) = true then
        (recur (row + d.row) (col + d.col) (advance g v (row + d.row) (col + d.col) a)).cacheMap
      else a.cacheMap := by
  rw [moveDir_eq]
  split <;> rfl

/-- Every call of `findPath` leaves each memo slot at least as large as it
was. -/
theorem findPath_cacheLe (g : GridS) (n : Nat) (v : Int) :
    ∀ (ml : Nat) (row col : Int) (s : SearchState),
      CacheLe s.cacheMap (findPath g n v ml row col s).cacheMap
  | 0, row, col, s => by
    unfold findPath
    split
    · exact cacheLe_refl _
    next s1 he => exact enterCell_cacheLe he
  | ml + 1, row, col, s => by
    unfold findPath
    split
    · exact cacheLe_refl _
    next s1 he =>
      refine foldl_inv (fun x : SearchState => CacheLe s.cacheMap x.cacheMap) _ dirs ?_ s1
        (enterCell_cacheLe he)
      intro a d _ ha
      rw [moveDir_cacheMap]
      split
      · exact cacheLe_trans ha (findPath_cacheLe g n v ml _ _ _)
      · exact ha

theorem startCell_cacheLe (g : GridS) (n : Nat) (row col : Nat) (st : SolveState) :
    CacheLe st.mem.cacheMap (startCell g n row st col).mem.cacheMap := by
  rw [startCell_eq]
  split
  · exact cacheLe_refl _
  · exact findPath_cacheLe g n _ _ _ _ _

/-! ## Termination of the recursion -/

theorem enterCellInt_eq (g : GridS) (n ml : Nat) (row col : Int) (s : SearchState) :
    enterCellInt g n (ml : Int) row col s = enterCell g n ml row col s := rfl

theorem foldl_moveDirFuel_none (g : GridS) (v : Int)
    (recF : Int → Int → SearchState → Option SearchState) (row col : Int) :
    ∀ l : List CoordS, l.foldl (moveDirFuel g v recF row col) none = none
  | [] => rfl
  | _ :: t => by
    rw [List.foldl_cons]
    exact foldl_moveDirFuel_none g v recF row col t

theorem foldl_moveDirFuel (g : GridS) (v : Int)
    (recF : Int → Int → SearchState → Option SearchState)
    (recur : Int → Int → SearchState → SearchState)
    (h : ∀ (r c : Int) (x : SearchState), recF r c x = some (recur r c x)) (row col : Int) :
    ∀ (l : List CoordS) (s : SearchState),
      l.foldl (moveDirFuel g v recF row col) (some s)
        = some (l.foldl (moveDir g v recur row col) s)
  | [], _ => rfl
  | d :: t, s => by
    rw [List.foldl_cons, List.foldl_cons]
    have hstep : moveDirFuel g v recF row col (some s) d
        = some (moveDir g v recur row col s d) := by
      rw [moveDir_eq]
      unfold moveDirFuel
      by_cases hv : isCellValid g (row + d.row) (col + d.col) = true
      · simp [hv, h]
      · simp [hv]
    rw [hstep]
    exact foldl_moveDirFuel g v recF recur h row col t _

/-- With a nesting depth of more than `movesLeft` the recursion of `findPath`
ends, and with the result of `findPath`. -/
theorem findPathFuel_eq (g : GridS) (n : Nat) (v : Int) :
    ∀ (ml fuel : Nat) (row col : Int) (s : SearchState), ml < fuel →
      findPathFuel g n v fuel (ml : Int) row col s = some (findPath g n v ml row col s)
  | _, 0, _, _, _, h => absurd h (by omega)
  | 0, fuel + 1, row, col, s, _ => by
    unfold findPathFuel findPath
    rw [enterCellInt_eq]
    cases enterCell g n 0 row col s with
    | none => rfl
    | some s1 => simp
  | ml + 1, fuel + 1, row, col, s, h => by
    unfold findPathFuel findPath
    rw [enterCellInt_eq]
    cases enterCell g n (ml + 1) row col s with
    | none => rfl
    | some s1 =>
      have hne : ¬ (((ml + 1 : Nat) : Int) = 0) := by omega
      have hsub : ((ml + 1 : Nat) : Int) - 1 = (ml : Int) := by omega
      simp only [hne, if_false, hsub]
      exact foldl_moveDirFuel g v _ _
        (fun r c x => findPathFuel_eq g n v ml fuel r c x (by omega)) row col dirs s1

/-! ## The flat indices -/

theorem cellIdx_nonneg (g : GridS) (row col : Int) (h1 : 0 ≤ row) (h3 : 0 ≤ col) :
    0 ≤ getCellIdx g row col := by
  unfold getCellIdx
  have := Int.mul_nonneg h1 (Int.ofNat_nonneg g.cols)
  omega

theorem cellIdx_inj_range (g : GridS) (r1 c1 r2 c2 : Int)
    (a3 : 0 ≤ c1) (a4 : c1 < g.cols) (b3 : 0 ≤ c2) (b4 : c2 < g.cols)
    (e : getCellIdx g r1 c1 = getCellIdx g r2 c2) : r1 = r2 ∧ c1 = c2 := by
  unfold getCellIdx at e
  have hr : r1 = r2 := by
    rcases lt_trichotomy r1 r2 with hlt | heq | hgt
    · exfalso
      have : (r1 + 1) * (g.cols : Int) ≤ r2 * (g.cols : Int) :=
        Int.mul_le_mul_of_nonneg_right (by omega) (by omega)
      have e5 : (r1 + 1) * (g.cols : Int) = r1 * (g.cols : Int) + g.cols := by ring
      omega
    · exact heq
    · exfalso
      have : (r2 + 1) * (g.cols : Int) ≤ r1 * (g.cols : Int) :=
        Int.mul_le_mul_of_nonneg_right (by omega) (by omega)
      have e5 : (r2 + 1) * (g.cols : Int) = r2 * (g.cols : Int) + g.cols := by ring
      omega
  refine ⟨hr, ?_⟩
  rw [hr] at e
  omega

theorem loopTrace_forall {σ δ ε : Type} (I : σ → Prop) (P : ε → Prop) (step : σ → δ → σ)
    (events : σ → δ → List ε) :
    ∀ (l : List δ) (s : σ),
      (∀ a, ∀ d ∈ l, I a → I (step a d) ∧ ∀ e ∈ events a d, P e) → I s →
        ∀ e ∈ loopTrace step events l s, P e
  | [], _, _, _, e, he => by simp [loopTrace] at he
  | d :: t, s, h, hs, e, he => by
    simp only [loopTrace, List.mem_append] at he
    obtain ⟨h1, h2⟩ := h s d (List.mem_cons_self _ _) hs
    rcases he with he | he
    · exact h2 e he
    · exact loopTrace_forall I P step events t (step s d)
        (fun a x hx ha => h a x (List.mem_cons_of_mem _ hx) ha) h1 e he

theorem coreInv_bounds {g : GridS} {n : Nat} {v : Int} {w : List CoordS} {s : SearchState}
    (h : CoreInv g n v w s) (hw : w.length ≤ n) :
    1 ≤ s.curPath.cover ∧ 1 ≤ s.curPath.len ∧ s.curPath.len ≤ n ∧
      s.curPath.cover ≤ s.curPath.len := by
  have hne := isWalk_ne_nil g w h.walk
  have h1 := distinctCells_pos w hne
  have h2 := distinctCells_le_length w
  rw [h.cover_eq, h.len_eq]
  omega

theorem BlockedZero.of_restored {g : GridS} {v : Int} {s t : SearchState}
    (h : BlockedZero g s.visitedCells) (hr : Restored v s t) :
    BlockedZero g t.visitedCells := by
  intro row col h1 h2 h3 h4 h5
  have h0 := h row col h1 h2 h3 h4 h5
  rcases hr.2.2.2 (getCellIdx g row col).toNat with e | ⟨e, _⟩
  · rw [e, h0]
  · exact e

theorem BlockedZero.set_valid {g : GridS} {vis : List Int} (h : BlockedZero g vis)
    (r c : Int) (hval : isCellValid g r c = true) (x : Int) :
    BlockedZero g (vis.set (getCellIdx g r c).toNat x) := by
  intro row col h1 h2 h3 h4 h5
  rw [isCellValid_iff] at hval
  obtain ⟨v1, _, v3, v4, v5⟩ := hval
  have hne : (getCellIdx g r c).toNat ≠ (getCellIdx g row col).toNat := by
    intro e
    have e1 := cellIdx_nonneg g r c v1 v3
    have e2 := cellIdx_nonneg g row col h1 h3
    have e3 : getCellIdx g r c = getCellIdx g row col := by omega
    obtain ⟨hr, hc⟩ := cellIdx_inj_range g r c row col v3 v4 h3 h4 e3
    rw [hr, hc] at v5
    exact h5 v5
  rw [getD_set_ne _ _ _ _ _ hne]
  exact h row col h1 h2 h3 h4 h5

theorem distinctCells_snoc_le (w : List CoordS) (a : CoordS) :
    distinctCells (w ++ [a]) ≤ distinctCells w + 1 := by
  by_cases h : a ∈ w
  · rw [distinctCells_snoc_of_mem w a h]
    omega
  · rw [distinctCells_snoc_of_not_mem w a h]

/-- Every observation of a call of `findPath` that starts in a state of the
search invariant satisfies `EventInv`. -/
theorem findPathTrace_inv {g : GridS} {n : Nat} {v : Int} (hv : 0 < v) :
    ∀ (ml : Nat) (w0 : List CoordS) (depth : Nat) (row col : Int) (s : SearchState),
      w0.length + 1 + ml = n → depth = w0.length → PathInv g n v w0 ⟨row, col⟩ s →
      BlockedZero g s.visitedCells →
        ∀ e ∈ findPathTrace g n v ml depth row col s, EventInv g n e := by
  intro ml
  induction ml with
  | zero =>
    intro w0 depth row col s hn hd h hbz e he
    unfold findPathTrace entryEvents at he
    have hentry : EventInv g n (Event.mk Pt.entry v row col 0 depth s) := by
      refine ⟨?_, fun _ => ⟨w0, h, hn, hd, hbz, hv⟩⟩
      obtain ⟨b1, b2, b3, b4⟩ := coreInv_bounds h.1
        (by simp only [List.length_append, List.length_singleton]; omega)
      exact ⟨b1, b2, b3, by simpa using b4⟩
    rcases List.mem_cons.mp he with he | he
    · rw [he]
      exact hentry
    · cases hec : enterCell g n 0 row col s with
      | none => rw [hec] at he; simp at he
      | some s1 =>
        rw [hec] at he
        simp only [List.mem_singleton] at he
        rw [he]
        obtain ⟨b1, b2, b3, b4⟩ := coreInv_bounds (enterCell_inv 0 hn h hec).1
          (by simp only [List.length_append, List.length_singleton]; omega)
        exact ⟨⟨b1, b2, b3, by simpa using b4⟩, fun hp => absurd hp (by simp)⟩
  | succ ml ih =>
    intro w0 depth row col s hn hd h hbz e he
    unfold findPathTrace entryEvents at he
    have hwl : (w0 ++ [(⟨row, col⟩ : CoordS)]).length ≤ n := by
      simp only [List.length_append, List.length_singleton]
      omega
    have hwl2 : (w0 ++ [(⟨row, col⟩ : CoordS)]).length + 1 ≤ n := by
      simp only [List.length_append, List.length_singleton]
      omega
    have hentry : EventInv g n (Event.mk Pt.entry v row col (ml + 1) depth s) := by
      refine ⟨?_, fun _ => ⟨w0, h, hn, hd, hbz, hv⟩⟩
      obtain ⟨b1, b2, b3, b4⟩ := coreInv_bounds h.1 hwl
      exact ⟨b1, b2, b3, by simpa using b4⟩
    rcases List.mem_cons.mp he with he | he
    · rw [he]
      exact hentry
    · cases hec : enterCell g n (ml + 1) row col s with
      | none => rw [hec] at he; simp at he
      | some s1 =>
        rw [hec] at he
        have hloop := enterCell_inv (ml + 1) hn h hec
        have hbz1 : BlockedZero g s1.visitedCells := by
          rw [(enterCell_frame hec).2.2]
          exact hbz
        rcases List.mem_cons.mp he with he | he
        · rw [he]
          obtain ⟨b1, b2, b3, b4⟩ := coreInv_bounds hloop.1 hwl
          exact ⟨⟨b1, b2, b3, by simpa using b4⟩, fun hp => absurd hp (by simp)⟩
        · refine loopTrace_forall
            (fun a : SearchState => LoopInv g n v (w0 ++ [⟨row, col⟩]) a ∧
              BlockedZero g a.visitedCells)
            (EventInv g n) _ _ dirs s1 ?_ ⟨hloop, hbz1⟩ e he
          intro a d hd2 ⟨ha, hza⟩
          have hrecinv : ∀ (r c : Int) (s2 : SearchState),
              PathInv g n v (w0 ++ [⟨row, col⟩]) ⟨r, c⟩ s2 →
                PathInv g n v (w0 ++ [⟨row, col⟩]) ⟨r, c⟩ (findPath g n v ml r c s2) :=
            fun r c s2 hs2 => findPath_inv hv ml _ r c s2
              (by simp only [List.length_append, List.length_singleton]; omega) hs2
          refine ⟨⟨moveDir_inv hv _ d hd2 hrecinv ha,
            hza.of_restored (moveDir_restored g v _ (findPath_restored g n v ml) row col a d)⟩,
            ?_⟩
          intro e2 he2
          unfold dirEvents at he2
          simp only at he2
          split at he2
          · simp at he2
          next hnv =>
            have hvd : isCellValid g (row + d.row) (col + d.col) = true := by simpa using hnv
            have hadv : PathInv g n v (w0 ++ [⟨row, col⟩]) ⟨row + d.row, col + d.col⟩
                (advance g v (row + d.row) (col + d.col) a) :=
              advance_inv (g := g) (n := n) (v := v) ⟨row + d.row, col + d.col⟩ hvd
                (adjacent_of_dir ⟨row, col⟩ d hd2) ha
            have hzadv : BlockedZero g
                (advance g v (row + d.row) (col + d.col) a).visitedCells :=
              hza.set_valid _ _ hvd v
            have hret : PathInv g n v (w0 ++ [⟨row, col⟩]) ⟨row + d.row, col + d.col⟩
                (findPath g n v ml (row + d.row) (col + d.col)
                  (advance g v (row + d.row) (col + d.col) a)) := hrecinv _ _ _ hadv
            have hback : LoopInv g n v (w0 ++ [⟨row, col⟩])
                (retreat g (row + d.row) (col + d.col)
                  (decide (a.visitedCells.getD
                    (getCellIdx g (row + d.row) (col + d.col)).toNat 0 ≠ v))
                  (findPath g n v ml (row + d.row) (col + d.col)
                    (advance g v (row + d.row) (col + d.col) a))) :=
              retreat_inv hv ⟨row + d.row, col + d.col⟩ hvd ha hret
            have hwl3 : ((w0 ++ [(⟨row, col⟩ : CoordS)]) ++
                [(⟨row + d.row, col + d.col⟩ : CoordS)]).length ≤ n := by
              simp only [List.length_append, List.length_singleton]
              omega
            obtain ⟨a1, a2, a3, a4⟩ := coreInv_bounds hadv.1 hwl3
            obtain ⟨r1, r2, r3, r4⟩ := coreInv_bounds hret.1 hwl3
            obtain ⟨k1, k2, k3, k4⟩ := coreInv_bounds hback.1 hwl
            have hrl : (findPath g n v ml (row + d.row) (col + d.col)
                (advance g v (row + d.row) (col + d.col) a)).curPath.len
                = (w0.length : Int) + 2 := by
              have := hret.1.len_eq
              simp only [List.length_append, List.length_singleton] at this
              rw [this]
              push_cast
              ring
            simp only [List.mem_append, List.mem_cons, List.mem_singleton, List.mem_nil_iff,
              or_false] at he2
            rcases he2 with ((he2 | he2) | he2) | (he2 | he2 | he2 | he2)
            · rw [he2]
              exact ⟨⟨a1, a2, a3, by simpa using a4⟩, fun hp => absurd hp (by simp)⟩
            · rw [he2]
              exact ⟨⟨a1, a2, a3, by simpa using a4⟩, fun hp => absurd hp (by simp)⟩
            · exact ih (w0 ++ [⟨row, col⟩]) (depth + 1) _ _ _
                (by simp only [List.length_append, List.length_singleton]; omega)
                (by simp only [List.length_append, List.length_singleton]; omega)
                hadv hzadv e2 he2
            · rw [he2]
              exact ⟨⟨r1, r2, r3, by simpa using r4⟩, fun hp => absurd hp (by simp)⟩
            · rw [he2]
              refine ⟨⟨r1, ?_, ?_, ?_⟩, fun hp => absurd hp (by simp)⟩
              · simp only [afterLenDec]
                omega
              · simp only [afterLenDec]
                omega
              · simp only [afterLenDec, if_true]
                omega
            · rw [he2]
              exact ⟨⟨k1, k2, k3, by simpa using k4⟩, fun hp => absurd hp (by simp)⟩
            · rw [he2]
              exact ⟨⟨k1, k2, k3, by simpa using k4⟩, fun hp => absurd hp (by simp)⟩

theorem BlockedZero.replicate (g : GridS) (k : Nat) : BlockedZero g (List.replicate k 0) := by
  intro row col _ _ _ _ _
  exact getD_replicate k _ 0

theorem startState_blockedZero {g : GridS} (row col : Nat) (hr : row < g.rows)
    (hc : col < g.cols) (st : SolveState) (hcell : cellAt g row col = 0)
    (hz : BlockedZero g st.mem.visitedCells) :
    BlockedZero g (startState g row col st).visitedCells := by
  have hval : isCellValid g row col = true := by
    rw [isCellValid_iff]
    exact ⟨by omega, by omega, by omega, by omega, hcell⟩
  exact hz.set_valid _ _ hval _

theorem startCell_blockedZero {g : GridS} (n : Nat) (row col : Nat) (hr : row < g.rows)
    (hc : col < g.cols) (st : SolveState) (hz : BlockedZero g st.mem.visitedCells) :
    BlockedZero g (startCell g n row st col).mem.visitedCells := by
  rw [startCell_eq]
  split
  · exact hz
  next hcell =>
    exact (startState_blockedZero row col hr hc st (by simpa using hcell) hz).of_restored
      (findPath_restored g n (st.visitId + 1) (n - 1) row col (startState g row col st))

theorem startEvents_inv {g : GridS} {n : Nat} (hn : 1 ≤ n) (row col : Nat) (hr : row < g.rows)
    (hc : col < g.cols) (st : SolveState) (h : SolveInv g n st)
    (hz : BlockedZero g st.mem.visitedCells) :
    ∀ e ∈ startEvents g n row st col, EventInv g n e := by
  intro e he
  unfold startEvents at he
  split at he
  · simp at he
  next hcell =>
    have hcell0 : cellAt g row col = 0 := by simpa using hcell
    exact findPathTrace_inv (by have := h.idPos; omega) (n - 1) [] 0 row col _
      (by simp only [List.length_nil]; omega) rfl
      (startState_inv row col hr hc st h hcell0)
      (startState_blockedZero row col hr hc st hcell0 hz) e he

/-- Every observation of the double loop of `solve` satisfies `EventInv`. -/
theorem searchTrace_inv {g : GridS} {n : Nat} (hn : 1 ≤ n) :
    ∀ e ∈ searchTrace g n, EventInv g n e := by
  unfold searchTrace
  refine loopTrace_forall
    (fun st : SolveState => SolveInv g n st ∧ BlockedZero g st.mem.visitedCells)
    (EventInv g n) _ _ (List.range g.rows) (initState g n) ?_
    ⟨initState_inv g n, by simp only [initState]; exact BlockedZero.replicate g _⟩
  intro st row hrow hst
  have hr := List.mem_range.mp hrow
  constructor
  · refine foldl_inv
      (fun st : SolveState => SolveInv g n st ∧ BlockedZero g st.mem.visitedCells)
      _ (List.range g.cols) ?_ st hst
    intro a col hcol ha
    have hc := List.mem_range.mp hcol
    exact ⟨startCell_inv hn row col hr hc a ha.1, startCell_blockedZero n row col hr hc a ha.2⟩
  · refine loopTrace_forall
      (fun st : SolveState => SolveInv g n st ∧ BlockedZero g st.mem.visitedCells)
      (EventInv g n) _ _ (List.range g.cols) st ?_ hst
    intro a col hcol ha
    have hc := List.mem_range.mp hcol
    exact ⟨⟨startCell_inv hn row col hr hc a ha.1, startCell_blockedZero n row col hr hc a ha.2⟩,
      startEvents_inv hn row col hr hc a ha.1 ha.2⟩

/-! ## The memo table along a run -/

theorem loopTrace_chain {σ δ : Type} {Ch : List Int → List Event → List Int → Prop}
    (laws : ChainLaws Ch) (I : σ → Prop) (cache : σ → List Int) (step : σ → δ → σ)
    (events : σ → δ → List Event) :
    ∀ (l : List δ) (s : σ),
      (∀ a, ∀ d ∈ l, I a → I (step a d) ∧ Ch (cache a) (events a d) (cache (step a d))) →
      I s → Ch (cache s) (loopTrace step events l s) (cache (l.foldl step s))
  | [], s, _, _ => laws.nil _
  | d :: t, s, h, hs => by
    obtain ⟨h1, h2⟩ := h s d (List.mem_cons_self _ _) hs
    simp only [loopTrace, List.foldl_cons]
    exact laws.append _ _ _ _ _ h2
      (loopTrace_chain laws I cache step events t (step s d)
        (fun a x hx ha => h a x (List.mem_cons_of_mem _ hx) ha) h1)

theorem findPath_zero_eq (g : GridS) (n : Nat) (v : Int) (row col : Int) (s : SearchState) :
    (findPath g n v 0 row col s).cacheMap = cacheAfterEntry g n 0 row col s := by
  unfold findPath cacheAfterEntry
  cases enterCell g n 0 row col s <;> rfl

/-- A relation with the laws of `ChainLaws` that holds across the entry block
of every call holds across every call of `findPath`. -/
theorem findPathTrace_chain {g : GridS} {n : Nat} {v : Int} (hv : 0 < v)
    {Ch : List Int → List Event → List Int → Prop} (laws : ChainLaws Ch)
    (hentry : ∀ (w0 : List CoordS) (row col : Int) (ml depth : Nat) (s : SearchState),
      w0.length + 1 + ml = n → PathInv g n v w0 ⟨row, col⟩ s →
        Ch s.cacheMap [Event.mk Pt.entry v row col ml depth s]
          (cacheAfterEntry g n ml row col s)) :
    ∀ (ml : Nat) (w0 : List CoordS) (depth : Nat) (row col : Int) (s : SearchState),
      w0.length + 1 + ml = n → PathInv g n v w0 ⟨row, col⟩ s →
        Ch s.cacheMap (findPathTrace g n v ml depth row col s)
          (findPath g n v ml row col s).cacheMap := by
  intro ml
  induction ml with
  | zero =>
    intro w0 depth row col s hn h
    have he := hentry w0 row col 0 depth s hn h
    unfold findPathTrace entryEvents findPath
    unfold cacheAfterEntry at he
    cases hec : enterCell g n 0 row col s with
    | none =>
      rw [hec] at he
      exact he
    | some s1 =>
      rw [hec] at he
      exact laws.append _ _ _ [_] [_] he
        (laws.plain (Event.mk Pt.entered v row col 0 depth s1) (by simp))
  | succ ml ih =>
    intro w0 depth row col s hn h
    have he := hentry w0 row col (ml + 1) depth s hn h
    unfold findPathTrace entryEvents findPath
    unfold cacheAfterEntry at he
    cases hec : enterCell g n (ml + 1) row col s with
    | none =>
      rw [hec] at he
      exact he
    | some s1 =>
      rw [hec] at he
      have hloop := enterCell_inv (ml + 1) hn h hec
      simp only
      refine laws.append _ _ _ [_] (_ :: _) he ?_
      refine laws.append _ _ _ [_] _
        (laws.plain (Event.mk Pt.entered v row col (ml + 1) depth s1) (by simp)) ?_
      refine loopTrace_chain laws (fun a : SearchState => LoopInv g n v (w0 ++ [⟨row, col⟩]) a)
        (fun a => a.cacheMap) _ _ dirs s1 ?_ hloop
      intro a d hd ha
      have hrecinv : ∀ (r c : Int) (s2 : SearchState),
          PathInv g n v (w0 ++ [⟨row, col⟩]) ⟨r, c⟩ s2 →
            PathInv g n v (w0 ++ [⟨row, col⟩]) ⟨r, c⟩ (findPath g n v ml r c s2) :=
        fun r c s2 hs2 => findPath_inv hv ml _ r c s2
          (by simp only [List.length_append, List.length_singleton]; omega) hs2
      refine ⟨moveDir_inv hv _ d hd hrecinv ha, ?_⟩
      simp only
      rw [moveDir_cacheMap]
      unfold dirEvents
      simp only
      by_cases hvd : isCellValid g (row + d.row) (col + d.col) = true
      · simp only [hvd, Bool.not_true, Bool.false_eq_true, if_false, if_true]
        have hadv : PathInv g n v (w0 ++ [⟨row, col⟩]) ⟨row + d.row, col + d.col⟩
            (advance g v (row + d.row) (col + d.col) a) :=
          advance_inv (g := g) (n := n) (v := v) ⟨row + d.row, col + d.col⟩ hvd
            (adjacent_of_dir ⟨row, col⟩ d hd) ha
        have hcall := ih (w0 ++ [⟨row, col⟩]) (depth + 1) (row + d.row) (col + d.col) _
          (by simp only [List.length_append, List.length_singleton]; omega) hadv
        refine laws.append _ _ _ _ _ (laws.append _ _ _ _ _ ?_ hcall) ?_
        · exact laws.append _ _ _ [_] [_]
            (laws.plain (Event.mk Pt.lenInc v row col (ml + 1) depth
              (afterLenInc g v (row + d.row) (col + d.col) a)) (by simp))
            (laws.plain (Event.mk Pt.marked v row col (ml + 1) depth
              (advance g v (row + d.row) (col + d.col) a)) (by simp))
        · refine laws.append _ _ _ [_] _ (laws.plain (Event.mk Pt.returned v row col (ml + 1)
            depth _) (by simp)) ?_
          refine laws.append _ _ _ [_] _ (laws.plain (Event.mk Pt.lenDec v row col (ml + 1)
            depth (afterLenDec _)) (by simp)) ?_
          exact laws.append _ _ _ [_] [_]
            (laws.plain (Event.mk Pt.coverDec v row col (ml + 1) depth
              (afterCoverDec _ _)) (by simp))
            (laws.plain (Event.mk Pt.backtracked v row col (ml + 1) depth
              (retreat g _ _ _ _)) (by simp))
      · simp only [hvd, Bool.not_false, if_true, Bool.false_eq_true, if_false]
        exact laws.nil _

theorem startEvents_chain {g : GridS} {n : Nat} (hn : 1 ≤ n)
    {Ch : List Int → List Event → List Int → Prop} (laws : ChainLaws Ch)
    (hentry : ∀ (v : Int) (w0 : List CoordS) (row col : Int) (ml depth : Nat)
      (s : SearchState), 0 < v → w0.length + 1 + ml = n → PathInv g n v w0 ⟨row, col⟩ s →
        Ch s.cacheMap [Event.mk Pt.entry v row col ml depth s]
          (cacheAfterEntry g n ml row col s))
    (row col : Nat) (hr : row < g.rows) (hc : col < g.cols) (st : SolveState)
    (h : SolveInv g n st) :
    Ch st.mem.cacheMap (startEvents g n row st col) (startCell g n row st col).mem.cacheMap := by
  rw [startCell_eq]
  unfold startEvents
  split
  · exact laws.nil _
  next hcell =>
    have hv : 0 < st.visitId + 1 := by have := h.idPos; omega
    exact findPathTrace_chain hv laws
      (fun w0 r c ml depth s hl hp => hentry _ w0 r c ml depth s hv hl hp)
      (n - 1) [] 0 row col _ (by simp only [List.length_nil]; omega)
      (startState_inv row col hr hc st h (by simpa using hcell))

/-- A relation with the laws of `ChainLaws` that holds across the entry block
of every call holds across the whole double loop of `solve`. -/
theorem searchTrace_chain {g : GridS} {n : Nat} (hn : 1 ≤ n)
    {Ch : List Int → List Event → List Int → Prop} (laws : ChainLaws Ch)
    (hentry : ∀ (v : Int) (w0 : List CoordS) (row col : Int) (ml depth : Nat)
      (s : SearchState), 0 < v → w0.length + 1 + ml = n → PathInv g n v w0 ⟨row, col⟩ s →
        Ch s.cacheMap [Event.mk Pt.entry v row col ml depth s]
          (cacheAfterEntry g n ml row col s)) :
    Ch (initState g n).mem.cacheMap (searchTrace g n) (searchAll g n).mem.cacheMap := by
  unfold searchTrace searchAll
  refine loopTrace_chain laws (fun st : SolveState => SolveInv g n st)
    (fun st => st.mem.cacheMap) _ _ (List.range g.rows) (initState g n) ?_ (initState_inv g n)
  intro st row hrow hst
  have hr := List.mem_range.mp hrow
  constructor
  · refine foldl_inv (fun st : SolveState => SolveInv g n st) _ (List.range g.cols) ?_ st hst
    intro a col hcol ha
    exact startCell_inv hn row col hr (List.mem_range.mp hcol) a ha
  · refine loopTrace_chain laws (fun st : SolveState => SolveInv g n st)
      (fun st => st.mem.cacheMap) _ _ (List.range g.cols) st ?_ hst
    intro a col hcol ha
    have hc := List.mem_range.mp hcol
    exact ⟨startCell_inv hn row col hr hc a ha,
      startEvents_chain hn laws hentry row col hr hc a ha⟩

theorem monoChain_laws : ChainLaws MonoChain where
  nil := fun c => ⟨cacheLe_refl c, fun _ he => absurd he (by simp), List.Pairwise.nil⟩
  append := by
    intro c0 c1 c2 T U ⟨a1, a2, a3⟩ ⟨b1, b2, b3⟩
    refine ⟨cacheLe_trans a1 b1, ?_, ?_⟩
    · intro e he
      rcases List.mem_append.mp he with h | h
      · exact ⟨(a2 e h).1, cacheLe_trans (a2 e h).2 b1⟩
      · exact ⟨cacheLe_trans a1 (b2 e h).1, (b2 e h).2⟩
    · rw [List.pairwise_append]
      exact ⟨a3, b3, fun x hx y hy => cacheLe_trans (a2 x hx).2 (b2 y hy).1⟩
  plain := fun e _ =>
    ⟨cacheLe_refl _, fun x hx => by
      rw [List.mem_singleton.mp hx]
      exact ⟨cacheLe_refl _, cacheLe_refl _⟩, List.pairwise_singleton _ _⟩

theorem cacheAfterEntry_le (g : GridS) (n ml : Nat) (row col : Int) (s : SearchState) :
    CacheLe s.cacheMap (cacheAfterEntry g n ml row col s) := by
  unfold cacheAfterEntry
  cases hec : enterCell g n ml row col s with
  | none => exact cacheLe_refl _
  | some s1 => exact enterCell_cacheLe hec

/-- Over the whole double loop of `solve` no memo slot ever decreases. -/
theorem searchTrace_mono (g : GridS) (n : Nat) (hn : 1 ≤ n) :
    MonoChain (initState g n).mem.cacheMap (searchTrace g n) (searchAll g n).mem.cacheMap := by
  refine searchTrace_chain hn monoChain_laws ?_
  intro v w0 row col ml depth s _ _ _
  have hle := cacheAfterEntry_le g n ml row col s
  refine ⟨hle, fun x hx => ?_, List.pairwise_singleton _ _⟩
  rw [List.mem_singleton.mp hx]
  exact ⟨cacheLe_refl _, hle⟩

theorem mem_solveTrace {g : GridS} {n : Nat} {e : Event} (he : e ∈ solveTrace g n) :
    e ∈ searchTrace g n ∧ g.numBlockedCells < g.rows * g.cols := by
  unfold solveTrace at he
  split at he
  · simp at he
  · exact ⟨he, by omega⟩

theorem findPathTrace_of_pruned (g : GridS) (n : Nat) (v : Int) (ml depth : Nat)
    (row col : Int) (s : SearchState) (he : enterCell g n ml row col s = none) :
    findPathTrace g n v ml depth row col s = [Event.mk Pt.entry v row col ml depth s] := by
  cases ml with
  | zero =>
    unfold findPathTrace entryEvents
    rw [he]
  | succ m =>
    unfold findPathTrace entryEvents
    rw [he]

theorem findPath_of_pruned (g : GridS) (n : Nat) (v : Int) (ml : Nat)
    (row col : Int) (s : SearchState) (he : enterCell g n ml row col s = none) :
    findPath g n v ml row col s = s := by
  cases ml with
  | zero =>
    unfold findPath
    rw [he]
  | succ m =>
    unfold findPath
    rw [he]

theorem entriesOf_findPathTrace_zero (g : GridS) (n : Nat) (v : Int) (depth : Nat)
    (row col : Int) (s : SearchState) :
    entriesOf (findPathTrace g n v 0 depth row col s)
      = [Event.mk Pt.entry v row col 0 depth s] := by
  unfold findPathTrace entryEvents entriesOf
  cases enterCell g n 0 row col s <;> simp

/-! ## The claims -/

/-- C3 fails on the 1 x 1 grid without blocked cells and budget 1: `solve`
reports coverage 1 and length 1, but the one path slot it prints was never
written, so the reported entries are not a walk of the grid. -/
theorem C3_reported_path_unwritten :
    reported (solve (createGrid 1 1 []) 1) = some (1, 1) ∧
      reportedPath (solve (createGrid 1 1 []) 1) = some [none] := by
  decide

/-- C4, as stated, fails: on `openGrid` (3 x 3, no blocked cell) with budget 4,
`solve` reports coverage 4 and length 4, not coverage 9 and length 8. -/
theorem C4_budget_four :
    reported (solve openGrid 4) = some (4, 4) ∧
      reported (solve openGrid 4) ≠ some (9, 8) := by
  have h : reported (solve openGrid 4) = some (4, 4) := by decide!
  exact ⟨h, by rw [h]; decide⟩

/-- C4, amended: on `openGrid` (3 x 3, no blocked cell) the budget bounds the
number of cells of a path and the reported length counts cells; for every
budget of at least 4 `solve` reports coverage and length `min numMoves 9`:
coverage 4 and length 4 with budget 4, and coverage 9 and length 9 for every
budget of at least 9. -/
theorem C4_open_grid (numMoves : Nat) (hn : 4 ≤ numMoves) :
    reported (solve openGrid numMoves)
      = some (((min numMoves 9 : Nat) : Int), ((min numMoves 9 : Nat) : Int)) := by
  by_cases hsmall : numMoves < 9
  · interval_cases numMoves <;> decide!
  · obtain ⟨k, rfl⟩ : ∃ k, numMoves = 9 + k := ⟨numMoves - 9, by omega⟩
    have hslot : cacheAt (searchAll openGrid 9).mem.cacheMap 9 8 0 = 9 := by
      decide!
    have hdom := searchAll_dominates openGrid 9 k (by decide) 8 0 (by decide)
      (by decide) (by rw [hslot]; decide)
    rw [hslot] at hdom
    have hfree : numFreeCells openGrid = 9 := by decide
    obtain ⟨w, hw, _, hlen, hcov⟩ :=
      searchAll_realised openGrid (9 + k) (by omega) (by rw [hfree]; decide)
    have h1 := distinctCells_le_numFreeCells _ w hw
    have h2 := distinctCells_le_length w
    rw [hfree] at h1
    rw [solve_searched _ _ (by decide)]
    unfold Dominates at hdom
    have hmin : min (9 + k) 9 = 9 := by omega
    simp only [reported, Option.some.injEq, Prod.mk.injEq, hmin]
    push_cast at hdom ⊢
    omega

/-- Witness of C4 (amended) at budget 12. -/
theorem C4_open_grid_witness :
    4 ≤ 12 ∧ reported (solve openGrid 12) = some (9, 9) :=
  ⟨by decide, C4_open_grid 12 (by decide)⟩

/-- C5, as stated, fails: the 1 x 2 grid without blocked cells has two
orthogonally adjacent unblocked cells, yet with budget 1 `solve` reports
coverage 1 and length 1, not 2 and 2. -/
theorem C5_budget_one_two_cells :
    isCellValid (createGrid 1 2 []) 0 0 = true ∧ isCellValid (createGrid 1 2 []) 0 1 = true ∧
      adjacent ⟨0, 0⟩ ⟨0, 1⟩ = true ∧
      reported (solve (createGrid 1 2 []) 1) = some (1, 1) ∧
      reported (solve (createGrid 1 2 []) 1) ≠ some (2, 2) := by
  decide

/-- C5, amended: with budget 1 the top-level call of `findPath` has
`movesLeft = 0` and tries no direction, whether or not the starting cell has a
valid neighbour; on every grid on which the search runs, `solve` reports
coverage 1 and length 1. -/
theorem C5_budget_one (g : GridS) (hguard : g.numBlockedCells < g.rows * g.cols) :
    (∀ (v : Int) (row col : Int) (s : SearchState),
      findPath g 1 v (1 - 1) row col s = (enterCell g 1 0 row col s).getD s) ∧
      reported (solve g 1) = some (1, 1) := by
  constructor
  · intro v row col s
    show findPath g 1 v 0 row col s = _
    unfold findPath
    cases enterCell g 1 0 row col s <;> rfl
  · rw [solve_searched g 1 hguard]
    have h := searchAll_best_initial g 1 (fun row col v s _ _ _ h1 h2 h3 h4 =>
      findPath_zero_best h1 h2 h3 h4)
    simp only [reported, h]

/-- Witness of C5 (amended) on the grid built by `main`. -/
theorem C5_budget_one_witness :
    exampleGrid.numBlockedCells < exampleGrid.rows * exampleGrid.cols ∧
      (∀ (v : Int) (row col : Int) (s : SearchState),
        findPath exampleGrid 1 v (1 - 1) row col s
          = (enterCell exampleGrid 1 0 row col s).getD s) ∧
      reported (solve exampleGrid 1) = some (1, 1) :=
  ⟨by decide, C5_budget_one exampleGrid (by decide)⟩

/-- C6 fails in its last part on every grid of the scenario: when each
unblocked cell has no valid orthogonal neighbour, `solve` reports coverage 1
and length 1, but `bestPath` is still the initial record of line 175, so the
one slot that is printed was never written and is not a starting cell. -/
theorem C6_enclosed_cells (g : GridS) (numMoves : Nat) (hn : 1 ≤ numMoves)
    (hguard : g.numBlockedCells < g.rows * g.cols)
    (henc : ∀ row col : Int, isCellValid g row col = true → isEnclosedCell g row col = true) :
    reported (solve g numMoves) = some (1, 1) ∧
      reportedPath (solve g numMoves) = some [none] := by
  rw [solve_searched g numMoves hguard]
  have h := searchAll_best_initial g numMoves (fun row col v s hr hc hcell h1 h2 h3 h4 =>
    findPath_best_of_enclosed (numMoves - 1)
      (henc row col ((isCellValid_iff g row col).mpr
        ⟨by omega, by omega, by omega, by omega, hcell⟩)) h1 h2 h3 h4)
  simp only [reported, reportedPath, h]
  obtain ⟨m, rfl⟩ : ∃ m, numMoves = m + 1 := ⟨numMoves - 1, by omega⟩
  simp [List.replicate_succ]

/-- Witness of C6 on `enclosedGrid` (3 x 3, centre and corners enclosed by the
blocked cells (0,1), (1,0), (1,2), (2,1)) with budget 4. -/
theorem C6_enclosed_cells_witness :
    1 ≤ 4 ∧ enclosedGrid.numBlockedCells < enclosedGrid.rows * enclosedGrid.cols ∧
      (∀ row col : Int, isCellValid enclosedGrid row col = true →
        isEnclosedCell enclosedGrid row col = true) ∧
      reported (solve enclosedGrid 4) = some (1, 1) ∧
      reportedPath (solve enclosedGrid 4) = some [none] :=
  ⟨by decide, by decide, enclosedGrid_enclosed,
    C6_enclosed_cells enclosedGrid 4 (by decide) (by decide) enclosedGrid_enclosed⟩

/-- C7: whenever the search runs on a grid with an unblocked cell and a budget
of at least 1, the reported coverage is at most the number of unblocked cells
and at most `numMoves`. -/
theorem C7_coverage_upper_bound (g : GridS) (numMoves : Nat) (hn : 1 ≤ numMoves)
    (hguard : g.numBlockedCells < g.rows * g.cols) (hfree : 1 ≤ numFreeCells g) :
    ∃ st, solve g numMoves = SolveResult.searched st ∧
      st.mem.bestPath.cover ≤ numFreeCells g ∧ st.mem.bestPath.cover ≤ numMoves := by
  obtain ⟨w, hw, hl, _, hcov⟩ := searchAll_realised g numMoves hn hfree
  refine ⟨_, solve_searched g numMoves hguard, ?_, ?_⟩
  · rw [hcov]
    exact_mod_cast distinctCells_le_numFreeCells g w hw
  · rw [hcov]
    exact_mod_cast le_trans (distinctCells_le_length w) hl

/-- Witness of C7, the instance named in the claim: on the 8 x 8 grid of `main`,
which has 55 unblocked cells, with budget 25 the reported coverage is at most
`min 55 25`. -/
theorem C7_example_grid :
    1 ≤ 25 ∧ exampleGrid.numBlockedCells < exampleGrid.rows * exampleGrid.cols ∧
      numFreeCells exampleGrid = 55 ∧
      ∃ st, solve exampleGrid 25 = SolveResult.searched st ∧
        st.mem.bestPath.cover ≤ ((min 55 25 : Nat) : Int) := by
  have hfree : numFreeCells exampleGrid = 55 := by decide
  obtain ⟨st, hst, h1, h2⟩ :=
    C7_coverage_upper_bound exampleGrid 25 (by decide) (by decide) (by rw [hfree]; decide)
  refine ⟨by decide, by decide, hfree, st, hst, ?_⟩
  have : ((min 55 25 : Nat) : Int) = 25 := by decide
  rw [this]
  exact_mod_cast h2

/-- C8: on a grid built by `createGrid` in which every cell is blocked, `solve`
takes the "No free cells." branch, which returns before any allocation and
before any call of `findPath`. -/
theorem C8_all_blocked (rows cols : Nat) (blockedCells : List CoordS) (numMoves : Nat)
    (hall : ∀ r c : Nat, r < rows → c < cols →
      cellAt (createGrid rows cols blockedCells) r c ≠ 0) :
    solve (createGrid rows cols blockedCells) numMoves = SolveResult.noFreeCells := by
  have hlen : rows * cols ≤ blockedCells.length := by
    apply length_ge_of_all_listed
    intro r c hr hc
    by_contra hnot
    apply hall r c hr hc
    rw [cellAt_createGrid rows cols blockedCells r c hr hc, if_neg hnot]
  unfold solve
  rw [if_pos (by simpa [createGrid] using hlen)]

/-- Witness of C8: the 1 x 2 grid with both cells listed as blocked. -/
theorem C8_all_blocked_witness :
    (∀ r c : Nat, r < 1 → c < 2 → cellAt (createGrid 1 2 [⟨0, 0⟩, ⟨0, 1⟩]) r c ≠ 0) ∧
      solve (createGrid 1 2 [⟨0, 0⟩, ⟨0, 1⟩]) 25 = SolveResult.noFreeCells := by
  have hall : ∀ r c : Nat, r < 1 → c < 2 →
      cellAt (createGrid 1 2 [⟨0, 0⟩, ⟨0, 1⟩]) r c ≠ 0 := by
    intro r c hr hc
    interval_cases r
    interval_cases c <;> decide
  exact ⟨hall, C8_all_blocked 1 2 [⟨0, 0⟩, ⟨0, 1⟩] 25 hall⟩

/-- C9 fails on the 1 x 1 grid built from the blocked list `[(1,1)]`: the
listed coordinate lies outside the grid, cell (0,0) is unblocked, yet
`rows * cols <= numBlockedCells` holds and `solve` skips the search. -/
theorem C9_skips_with_free_cell :
    (createGrid 1 1 [⟨1, 1⟩]).rows * (createGrid 1 1 [⟨1, 1⟩]).cols
        ≤ (createGrid 1 1 [⟨1, 1⟩]).numBlockedCells ∧
      isCellValid (createGrid 1 1 [⟨1, 1⟩]) 0 0 = true ∧
      numFreeCells (createGrid 1 1 [⟨1, 1⟩]) = 1 ∧
      solve (createGrid 1 1 [⟨1, 1⟩]) 25 = SolveResult.noFreeCells := by
  decide

/-- C10: `createGrid` returns a grid with the given `rows` and `cols`, whose
matrix has `rows` rows of `cols` entries; the cell at an in-range `(r, c)` is
`1` if `(r, c)` occurs in the blocked list and `0` otherwise; and removing the
list entries that lie outside the grid changes no cell. -/
theorem C10_createGrid (rows cols : Nat) (blockedCells : List CoordS) :
    (createGrid rows cols blockedCells).rows = rows ∧
      (createGrid rows cols blockedCells).cols = cols ∧
      MatrixShape rows cols (createGrid rows cols blockedCells).cells ∧
      (∀ r c : Nat, r < rows → c < cols →
        cellAt (createGrid rows cols blockedCells) r c
          = if CoordS.mk r c ∈ blockedCells then 1 else 0) ∧
      (createGrid rows cols (blockedCells.filter (inGrid rows cols))).cells
        = (createGrid rows cols blockedCells).cells := by
  refine ⟨rfl, rfl, ?_, ?_, ?_⟩
  · exact matrixShape_foldl_blockCell rows cols blockedCells _ (matrixShape_replicate rows cols)
  · intro r c hr hc
    exact cellAt_createGrid rows cols blockedCells r c hr hc
  · unfold createGrid
    exact foldl_blockCell_filter rows cols blockedCells _

/-- Witness of C10: a 2 x 2 grid built from a list with an entry inside and an
entry outside the grid. -/
theorem C10_createGrid_witness :
    cellAt (createGrid 2 2 [⟨0, 1⟩, ⟨5, 5⟩]) (0 : Nat) (1 : Nat) = 1 ∧
      cellAt (createGrid 2 2 [⟨0, 1⟩, ⟨5, 5⟩]) (1 : Nat) (1 : Nat) = 0 ∧
      (createGrid 2 2 [⟨0, 1⟩]).cells = (createGrid 2 2 [⟨0, 1⟩, ⟨5, 5⟩]).cells := by
  have h := C10_createGrid 2 2 [⟨0, 1⟩, ⟨5, 5⟩]
  refine ⟨?_, ?_, ?_⟩
  · rw [h.2.2.2.1 0 1 (by decide) (by decide)]
    decide
  · rw [h.2.2.2.1 1 1 (by decide) (by decide)]
    decide
  · exact h.2.2.2.2

/-- C11: `isCellValid` returns true exactly when the coordinate is in range
and the cell is not blocked; on a grid whose matrix has `rows` rows of `cols`
entries the version with checked reads never reads outside the matrix and
returns the same value.  The function is pure: it returns a value and has no
access to any state. -/
theorem C11_isCellValid (g : GridS) (row col : Int)
    (hshape : MatrixShape g.rows g.cols g.cells) :
    (isCellValid g row col = true ↔
      0 ≤ row ∧ row < g.rows ∧ 0 ≤ col ∧ col < g.cols ∧ cellAt g row col = 0) ∧
      isCellValidChecked g row col = some (isCellValid g row col) := by
  refine ⟨isCellValid_iff g row col, ?_⟩
  unfold isCellValidChecked
  by_cases h : row ≥ 0 ∧ row < g.rows ∧ col ≥ 0 ∧ col < g.cols
  · rw [if_pos h, readCell_eq g row col hshape h.1 h.2.1 h.2.2.1 h.2.2.2]
    obtain ⟨h1, h2, h3, h4⟩ := h
    simp [isCellValid, h1, h2, h3, h4]
  · rw [if_neg h]
    have hf : isCellValid g row col = false := by
      rw [Bool.eq_false_iff]
      intro hv
      rw [isCellValid_iff] at hv
      exact h ⟨hv.1, hv.2.1, hv.2.2.1, hv.2.2.2.1⟩
    rw [hf]

/-- Witness of C11 on the grid built by `main`, at a coordinate outside it. -/
theorem C11_isCellValid_witness :
    MatrixShape exampleGrid.rows exampleGrid.cols exampleGrid.cells ∧
      (isCellValid exampleGrid 8 (-1) = true ↔
        0 ≤ (8 : Int) ∧ (8 : Int) < exampleGrid.rows ∧ 0 ≤ (-1 : Int) ∧
          (-1 : Int) < exampleGrid.cols ∧ cellAt exampleGrid 8 (-1) = 0) ∧
      isCellValidChecked exampleGrid 8 (-1) = some (isCellValid exampleGrid 8 (-1)) :=
  ⟨matrixShape_foldl_blockCell 8 8 _ _ (matrixShape_replicate 8 8),
    C11_isCellValid exampleGrid 8 (-1)
      (matrixShape_foldl_blockCell 8 8 _ _ (matrixShape_replicate 8 8))⟩

/-- C12, as stated, fails: in the run of `solve` on `pairGrid` (1 x 2, no
blocked cell) with budget 2, the top-level call for the starting cell (0,1) is
entered with visit stamps `[2, 3]` and returns with `[0, 3]`: the stamp 2 left
by the search from (0,0) is not restored. -/
theorem C12_stamp_not_restored :
    Event.mk Pt.entry 3 0 1 1 0 pairSecondStart ∈ solveTrace pairGrid 2 ∧
      pairSecondStart.visitedCells = [2, 3] ∧
      (findPath pairGrid 2 3 1 0 1 pairSecondStart).visitedCells = [0, 3] ∧
      (findPath pairGrid 2 3 1 0 1 pairSecondStart).visitedCells
        ≠ pairSecondStart.visitedCells := by
  decide

/-- C12, amended: every call of `findPath` with a visit id other than 0 (every
call of a run has one) returns with `curPath.cover` and `curPath.len` exactly
as on entry, and with every visit stamp either as on entry or, if it was not
the current visit id, reset to 0; so for every cell the test
`visitedCells[idx] == visitId` has the value it had on entry. -/
theorem C12_restoration (g : GridS) (numMoves : Nat) (visitId : Int) (movesLeft : Nat)
    (row col : Int) (s : SearchState) (hv : visitId ≠ 0) :
    (findPath g numMoves visitId movesLeft row col s).curPath.cover = s.curPath.cover ∧
      (findPath g numMoves visitId movesLeft row col s).curPath.len = s.curPath.len ∧
      (findPath g numMoves visitId movesLeft row col s).visitedCells.length
        = s.visitedCells.length ∧
      ∀ i : Nat,
        ((findPath g numMoves visitId movesLeft row col s).visitedCells.getD i 0 = visitId ↔
          s.visitedCells.getD i 0 = visitId) ∧
        ((findPath g numMoves visitId movesLeft row col s).visitedCells.getD i 0
            = s.visitedCells.getD i 0 ∨
          ((findPath g numMoves visitId movesLeft row col s).visitedCells.getD i 0 = 0 ∧
            s.visitedCells.getD i 0 ≠ visitId)) := by
  obtain ⟨h1, h2, h3, h4⟩ := findPath_restored g numMoves visitId movesLeft row col s
  refine ⟨h1, h2, h3, fun i => ⟨?_, h4 i⟩⟩
  rcases h4 i with e | ⟨e, e2⟩
  · rw [e]
  · rw [e]
    constructor
    · intro h0
      exact absurd h0.symm hv
    · intro h0
      exact absurd h0 e2

/-- Witness of C12 (amended) at the call of the counterexample. -/
theorem C12_restoration_witness :
    (3 : Int) ≠ 0 ∧
      (findPath pairGrid 2 3 1 0 1 pairSecondStart).curPath.cover
        = pairSecondStart.curPath.cover ∧
      (findPath pairGrid 2 3 1 0 1 pairSecondStart).curPath.len = pairSecondStart.curPath.len ∧
      (findPath pairGrid 2 3 1 0 1 pairSecondStart).visitedCells.length
        = pairSecondStart.visitedCells.length ∧
      ∀ i : Nat,
        ((findPath pairGrid 2 3 1 0 1 pairSecondStart).visitedCells.getD i 0 = 3 ↔
          pairSecondStart.visitedCells.getD i 0 = 3) ∧
        ((findPath pairGrid 2 3 1 0 1 pairSecondStart).visitedCells.getD i 0
            = pairSecondStart.visitedCells.getD i 0 ∨
          ((findPath pairGrid 2 3 1 0 1 pairSecondStart).visitedCells.getD i 0 = 0 ∧
            pairSecondStart.visitedCells.getD i 0 ≠ 3)) :=
  ⟨by decide, C12_restoration pairGrid 2 3 1 0 1 pairSecondStart (by decide)⟩

/-- C13: at every entry of `findPath` in a run of `solve`, the current path is
a walk `w0 ++ [(row, col)]` of `curPath.len` cells, of which `w0` fills the
path buffer before the current slot and `(row, col)` is the position of the
call; a cell of the grid has the current visit id as its stamp exactly when it
is on that walk, and no stamp exceeds the current visit id. -/
theorem C13_visit_stamps (g : GridS) (numMoves : Nat) (hn : 1 ≤ numMoves) (e : Event)
    (he : e ∈ solveTrace g numMoves) (hpt : e.pt = Pt.entry) :
    ∃ w0 : List CoordS,
      (w0.length : Int) + 1 = e.mem.curPath.len ∧
      e.mem.curPath.path.take w0.length = w0.map some ∧
      isWalk g (w0 ++ [⟨e.row, e.col⟩]) = true ∧
      (∀ row col : Int, 0 ≤ row → row < g.rows → 0 ≤ col → col < g.cols →
        (e.mem.visitedCells.getD (getCellIdx g row col).toNat 0 = e.visitId ↔
          (⟨row, col⟩ : CoordS) ∈ w0 ++ [⟨e.row, e.col⟩])) ∧
      ∀ x ∈ e.mem.visitedCells, x ≤ e.visitId := by
  obtain ⟨w0, hp, _, _, hz, hv⟩ := (searchTrace_inv hn e (mem_solveTrace he).1).2 hpt
  refine ⟨w0, ?_, hp.2, hp.1.walk, ?_, hp.1.stamps⟩
  · have := hp.1.len_eq
    simp only [List.length_append, List.length_singleton] at this
    rw [this]
    push_cast
    ring
  · intro row col h1 h2 h3 h4
    by_cases hcell : cellAt g row col = 0
    · exact hp.1.visited ⟨row, col⟩ ((isCellValid_iff g row col).mpr ⟨h1, h2, h3, h4, hcell⟩)
    · rw [hz row col h1 h2 h3 h4 hcell]
      constructor
      · intro h0
        omega
      · intro hm
        have := (isCellValid_iff g row col).mp (isWalk_valid g _ hp.1.walk ⟨row, col⟩ hm)
        exact absurd this.2.2.2.2 hcell

/-- Witness of C13 at the second top-level call of the run on `pairGrid`. -/
theorem C13_visit_stamps_witness :
    1 ≤ 2 ∧ Event.mk Pt.entry 3 0 1 1 0 pairSecondStart ∈ solveTrace pairGrid 2 ∧
      ∃ w0 : List CoordS,
        (w0.length : Int) + 1 = pairSecondStart.curPath.len ∧
        pairSecondStart.curPath.path.take w0.length = w0.map some ∧
        isWalk pairGrid (w0 ++ [⟨0, 1⟩]) = true ∧
        (∀ row col : Int, 0 ≤ row → row < pairGrid.rows → 0 ≤ col → col < pairGrid.cols →
          (pairSecondStart.visitedCells.getD (getCellIdx pairGrid row col).toNat 0 = 3 ↔
            (⟨row, col⟩ : CoordS) ∈ w0 ++ [⟨0, 1⟩])) ∧
        ∀ x ∈ pairSecondStart.visitedCells, x ≤ 3 :=
  ⟨by decide, by decide,
    C13_visit_stamps pairGrid 2 (by decide) (Event.mk Pt.entry 3 0 1 1 0 pairSecondStart)
      (by decide) rfl⟩

/-- C14, as stated, fails: in the run of `solve` on `pairGrid` with budget 2
there is a point of the direction loop after the length increment, the one
between `curPath->len--` (line 270) and `curPath->cover--` (line 273), at which
`curPath.cover` is 2 and `curPath.len` is 1. -/
theorem C14_cover_exceeds_len :
    ∃ e ∈ solveTrace pairGrid 2, e.pt = Pt.lenDec ∧
      e.mem.curPath.cover = 2 ∧ e.mem.curPath.len = 1 ∧
      ¬ (e.mem.curPath.cover ≤ e.mem.curPath.len) := by
  decide

/-- C14, amended: at every observation of a run of `solve` with a budget of at
least 1 (every entry of `findPath` and every point of its direction loop after
the length increment), `1 <= cover`, `1 <= len <= numMoves`, and
`cover <= len`, except between `curPath->len--` and `curPath->cover--`, where
`cover <= len + 1`; at every entry of `findPath`,
`curPath.len = numMoves - movesLeft`. -/
theorem C14_bounds (g : GridS) (numMoves : Nat) (hn : 1 ≤ numMoves) (e : Event)
    (he : e ∈ solveTrace g numMoves) :
    1 ≤ e.mem.curPath.cover ∧ 1 ≤ e.mem.curPath.len ∧ e.mem.curPath.len ≤ numMoves ∧
      (e.pt ≠ Pt.lenDec → e.mem.curPath.cover ≤ e.mem.curPath.len) ∧
      (e.pt = Pt.lenDec → e.mem.curPath.cover ≤ e.mem.curPath.len + 1) ∧
      (e.pt = Pt.entry → e.mem.curPath.len = (numMoves : Int) - e.movesLeft) := by
  obtain ⟨⟨b1, b2, b3, b4⟩, hentry⟩ := searchTrace_inv hn e (mem_solveTrace he).1
  refine ⟨b1, b2, b3, ?_, ?_, ?_⟩
  · intro hne
    rw [if_neg hne] at b4
    exact b4
  · intro heq
    rw [if_pos heq] at b4
    exact b4
  · intro hpt
    obtain ⟨w0, hp, hl, _, _, _⟩ := hentry hpt
    have := hp.1.len_eq
    simp only [List.length_append, List.length_singleton] at this
    rw [this]
    omega

/-- Witness of C14 (amended) at the second top-level call of the run on
`pairGrid`. -/
theorem C14_bounds_witness :
    1 ≤ 2 ∧ Event.mk Pt.entry 3 0 1 1 0 pairSecondStart ∈ solveTrace pairGrid 2 ∧
      1 ≤ pairSecondStart.curPath.cover ∧ 1 ≤ pairSecondStart.curPath.len ∧
      pairSecondStart.curPath.len ≤ (2 : Nat) ∧
      (Pt.entry ≠ Pt.lenDec → pairSecondStart.curPath.cover ≤ pairSecondStart.curPath.len) ∧
      (Pt.entry = Pt.lenDec →
        pairSecondStart.curPath.cover ≤ pairSecondStart.curPath.len + 1) ∧
      (Pt.entry = Pt.entry → pairSecondStart.curPath.len = ((2 : Nat) : Int) - (1 : Nat)) :=
  ⟨by decide, by decide,
    C14_bounds pairGrid 2 (by decide) (Event.mk Pt.entry 3 0 1 1 0 pairSecondStart)
      (by decide)⟩

/-- C15: a call of `findPath` that finds, on entry, a memo slot at least as
large as `curPath.cover` returns the memory it was given, unchanged in every
component, and its only observation is its own entry: it makes no recursive
call. -/
theorem C15_prune_unchanged (g : GridS) (numMoves : Nat) (visitId : Int)
    (movesLeft depth : Nat) (row col : Int) (s : SearchState)
    (h : slotOf g numMoves s.cacheMap row col movesLeft ≥ s.curPath.cover) :
    findPath g numMoves visitId movesLeft row col s = s ∧
      findPathTrace g numMoves visitId movesLeft depth row col s
        = [Event.mk Pt.entry visitId row col movesLeft depth s] :=
  ⟨findPath_of_pruned g numMoves visitId movesLeft row col s (enterCell_none h),
    findPathTrace_of_pruned g numMoves visitId movesLeft depth row col s (enterCell_none h)⟩

/-- Witness of C15: a call at cell (0,0) of `pairGrid` with one move left, in
a memory whose memo slot for that state already holds the coverage 2 of the
current path. -/
theorem C15_prune_unchanged_witness :
    slotOf pairGrid 2 [0, 2, 2, 0] 0 0 1 ≥ 2 ∧
      findPath pairGrid 2 3 1 0 0
          (SearchState.mk [0, 2, 2, 0] (PathS.mk 2 2 [some ⟨0, 1⟩, some ⟨0, 0⟩])
            (PathS.mk 2 2 [some ⟨0, 0⟩, some ⟨0, 1⟩]) [3, 3])
        = SearchState.mk [0, 2, 2, 0] (PathS.mk 2 2 [some ⟨0, 1⟩, some ⟨0, 0⟩])
            (PathS.mk 2 2 [some ⟨0, 0⟩, some ⟨0, 1⟩]) [3, 3] ∧
      findPathTrace pairGrid 2 3 1 1 0 0
          (SearchState.mk [0, 2, 2, 0] (PathS.mk 2 2 [some ⟨0, 1⟩, some ⟨0, 0⟩])
            (PathS.mk 2 2 [some ⟨0, 0⟩, some ⟨0, 1⟩]) [3, 3])
        = [Event.mk Pt.entry 3 0 0 1 1
            (SearchState.mk [0, 2, 2, 0] (PathS.mk 2 2 [some ⟨0, 1⟩, some ⟨0, 0⟩])
              (PathS.mk 2 2 [some ⟨0, 0⟩, some ⟨0, 1⟩]) [3, 3])] :=
  ⟨by decide,
    C15_prune_unchanged pairGrid 2 3 1 1 0 0
      (SearchState.mk [0, 2, 2, 0] (PathS.mk 2 2 [some ⟨0, 1⟩, some ⟨0, 0⟩])
        (PathS.mk 2 2 [some ⟨0, 0⟩, some ⟨0, 1⟩]) [3, 3]) (by decide)⟩

/-- C16: every call of `findPath` leaves each memo slot at least as large as
it was, and along a whole run of `solve` no memo slot ever decreases: of two
observations the later one has every slot at least as large, and every
observation lies between the zeroed table and the final one. -/
theorem C16_memo_monotone (g : GridS) (numMoves : Nat) (hn : 1 ≤ numMoves) :
    (∀ (visitId : Int) (movesLeft : Nat) (row col : Int) (s : SearchState),
      CacheLe s.cacheMap (findPath g numMoves visitId movesLeft row col s).cacheMap) ∧
      (solveTrace g numMoves).Pairwise (fun a b => CacheLe a.mem.cacheMap b.mem.cacheMap) ∧
      ∀ e ∈ solveTrace g numMoves,
        CacheLe (initState g numMoves).mem.cacheMap e.mem.cacheMap ∧
          CacheLe e.mem.cacheMap (searchAll g numMoves).mem.cacheMap := by
  refine ⟨fun v ml row col s => findPath_cacheLe g numMoves v ml row col s, ?_, ?_⟩
  · unfold solveTrace
    split
    · exact List.Pairwise.nil
    · exact (searchTrace_mono g numMoves hn).2.2
  · intro e he
    exact (searchTrace_mono g numMoves hn).2.1 e (mem_solveTrace he).1

/-- Witness of C16 on `pairGrid` with budget 2. -/
theorem C16_memo_monotone_witness :
    1 ≤ 2 ∧
      (∀ (visitId : Int) (movesLeft : Nat) (row col : Int) (s : SearchState),
        CacheLe s.cacheMap (findPath pairGrid 2 visitId movesLeft row col s).cacheMap) ∧
      (solveTrace pairGrid 2).Pairwise (fun a b => CacheLe a.mem.cacheMap b.mem.cacheMap) ∧
      ∀ e ∈ solveTrace pairGrid 2,
        CacheLe (initState pairGrid 2).mem.cacheMap e.mem.cacheMap ∧
          CacheLe e.mem.cacheMap (searchAll pairGrid 2).mem.cacheMap :=
  ⟨by decide, C16_memo_monotone pairGrid 2 (by decide)⟩

/-- C19: with a budget of at least 1, the call `findPath(.., numMoves - 1, ..)`
that `solve` makes ends within a nesting depth of `numMoves` and returns what
`findPath` returns; a call with `movesLeft = 0` makes no recursive call; and
every call of a run that is enclosed by `depth` other calls has
`movesLeft = numMoves - 1 - depth`, so that each recursive call passes
`movesLeft - 1` and the nesting depth never exceeds `numMoves`. -/
theorem C19_bounded_recursion (g : GridS) (numMoves : Nat) (hn : 1 ≤ numMoves) :
    (∀ (visitId : Int) (row col : Int) (s : SearchState) (fuel : Nat), numMoves ≤ fuel →
      findPathFuel g numMoves visitId fuel ((numMoves : Int) - 1) row col s
        = some (findPath g numMoves visitId (numMoves - 1) row col s)) ∧
      (∀ (visitId : Int) (depth : Nat) (row col : Int) (s : SearchState),
        entriesOf (findPathTrace g numMoves visitId 0 depth row col s)
          = [Event.mk Pt.entry visitId row col 0 depth s]) ∧
      ∀ e ∈ solveTrace g numMoves, e.pt = Pt.entry →
        e.depth + e.movesLeft + 1 = numMoves := by
  refine ⟨?_, fun v depth row col s => entriesOf_findPathTrace_zero g numMoves v depth row col s,
    ?_⟩
  · intro v row col s fuel hf
    have hcast : ((numMoves : Int) - 1) = ((numMoves - 1 : Nat) : Int) := by omega
    rw [hcast]
    exact findPathFuel_eq g numMoves v (numMoves - 1) fuel row col s (by omega)
  · intro e he hpt
    obtain ⟨w0, _, hl, hd, _, _⟩ := (searchTrace_inv hn e (mem_solveTrace he).1).2 hpt
    omega

/-- Witness of C19 on `pairGrid` with budget 2. -/
theorem C19_bounded_recursion_witness :
    1 ≤ 2 ∧
      findPathFuel pairGrid 2 3 2 (((2 : Nat) : Int) - 1) 0 1 pairSecondStart
        = some (findPath pairGrid 2 3 (2 - 1) 0 1 pairSecondStart) ∧
      findPathFuel pairGrid 2 3 1 (((2 : Nat) : Int) - 1) 0 1 pairSecondStart = none :=
  ⟨by decide,
    (C19_bounded_recursion pairGrid 2 (by decide)).1 3 0 1 pairSecondStart 2 (by decide),
    by decide⟩

end GridTraversal
